import Mathlib

/-!
# Space Invaders cabinet emulation (`machine.go`): peripheral and timing layer

Shallow embedding of `machine.go`.

* `uint8` / `uint16` / `uint` values are natural numbers; where the Go code
  computes in a fixed width the reduction `% 2 ^ w` is written out.
* Go `int` values that may be subtracted are integers.
* A method with a pointer receiver takes the machine state and returns the
  new one.  `go m.playSound(i)` is recorded as the clip index `i` in the list
  of triggered clips returned next to the state (program order).
* An out-of-range slice index panics in Go; such code returns `Option`.
* The CPU core (`cpu8080`) and SDL are external: the CPU is a record of the
  two fields the machine reads, and `GenerateInterrupt` is a parameter.
-/

namespace SpaceInvaders

/-! ## Constants and the machine state -/

def windowWidth : Nat := 224

def windowHeight : Nat := 256

/-- The Go struct `machineState`.  The field `sounds` (SDL audio handles, written
only by `loadSound` at start-up) is external and left out. -/
structure machineState where
  whichInterrupt : Nat
  shift0 : Nat
  shift1 : Nat
  shiftOffset : Nat
  inPort1 : Nat
  inPort2 : Nat
  lastOutPort3 : Nat
  lastOutPort5 : Nat
  paused : Bool
  screenBuffer : List Nat

/-! ## Port input -/

/-- Go `machineIN`: the receiver is only read. -/
def machineIN (m : machineState) (port : Nat) : Nat :=
  match port with
  | 1 => m.inPort1
  | 2 => m.inPort2
  | 3 =>
    let v := ((m.shift1 <<< 8) % 2 ^ 16) ||| m.shift0
    ((v >>> ((8 + 2 ^ 8 - m.shiftOffset) % 2 ^ 8)) &&& 0xff) % 2 ^ 8
  | _ => 0

/-! ## Sound lines -/

/-- Go `processSound`: returns the new state and the clips handed to
`go m.playSound(..)`, in program order. -/
def processSound (m : machineState) (port value : Nat) : machineState × List Nat :=
  if port = 3 then
    if value ≠ m.lastOutPort3 then
      let c0 := if (value &&& 0x1) > 0 ∧ (m.lastOutPort3 &&& 0x1) = 0 then [0] else []
      let c1 := if (value &&& 0x2) > 0 ∧ (m.lastOutPort3 &&& 0x2) = 0 then [1] else []
      let c2 := if (value &&& 0x4) > 0 ∧ (m.lastOutPort3 &&& 0x4) = 0 then [2] else []
      let c3 := if (value &&& 0x8) > 0 ∧ (m.lastOutPort3 &&& 0x8) = 0 then [3] else []
      ({ m with lastOutPort3 := value }, c0 ++ c1 ++ c2 ++ c3)
    else (m, [])
  else if port = 5 then
    if value ≠ m.lastOutPort5 then
      let c4 := if (value &&& 0x1) > 0 ∧ (m.lastOutPort5 &&& 0x1) = 0 then [4] else []
      let c5 := if (value &&& 0x2) > 0 ∧ (m.lastOutPort5 &&& 0x2) = 0 then [5] else []
      let c6 := if (value &&& 0x4) > 0 ∧ (m.lastOutPort5 &&& 0x4) = 0 then [6] else []
      let c7 := if (value &&& 0x8) > 0 ∧ (m.lastOutPort5 &&& 0x8) = 0 then [7] else []
      let c8 := if (value &&& 0x10) > 0 ∧ (m.lastOutPort5 &&& 0x10) = 0 then [8] else []
      ({ m with lastOutPort5 := value }, c4 ++ c5 ++ c6 ++ c7 ++ c8)
    else (m, [])
  else (m, [])

/-! ## Port output -/

/-- Go `machineOUT`: the new state and the clips triggered by the write. -/
def machineOUT (m : machineState) (port value : Nat) : machineState × List Nat :=
  match port with
  | 2 => ({ m with shiftOffset := value &&& 0x7 }, [])
  | 3 => processSound m port value
  | 4 => ({ m with shift0 := m.shift1, shift1 := value }, [])
  | 5 => processSound m port value
  | _ => (m, [])

/-! ## Keyboard events -/

/-- Key symbols the event loop distinguishes; `K_OTHER` stands for every key
symbol that no `case` of the two switches names. -/
inductive Keycode where
  | K_LEFT
  | K_RIGHT
  | K_SPACE
  | K_1
  | K_2
  | K_c
  | K_t
  | K_ESCAPE
  | K_OTHER
  deriving DecidableEq, Repr

/-- The `Type` field of an SDL keyboard event. -/
inductive KeyEventType where
  | KEYUP
  | KEYDOWN
  | OTHER
  deriving DecidableEq, Repr

/-- The `case *sdl.KeyboardEvent` branch of the event loop in `machineRun`:
the new machine state and the new value of the local `running`. -/
def keyboardEvent (m : machineState) (running : Bool) (type : KeyEventType) (sym : Keycode) :
    machineState × Bool :=
  match type with
  | .KEYUP =>
    match sym with
    | .K_LEFT =>
      ({ m with inPort1 := m.inPort1 &&& 0b11011111, inPort2 := m.inPort2 &&& 0b11011111 }, running)
    | .K_RIGHT =>
      ({ m with inPort1 := m.inPort1 &&& 0b10111111, inPort2 := m.inPort2 &&& 0b10111111 }, running)
    | .K_SPACE =>
      ({ m with inPort1 := m.inPort1 &&& 0b11101111, inPort2 := m.inPort2 &&& 0b11101111 }, running)
    | .K_1 => ({ m with inPort1 := m.inPort1 &&& 0b11111011 }, running)
    | .K_2 => ({ m with inPort1 := m.inPort1 &&& 0b11111101 }, running)
    | .K_c => ({ m with inPort1 := m.inPort1 &&& 0b11111110 }, running)
    | .K_t => ({ m with inPort2 := m.inPort2 &&& 0b11111011 }, running)
    | _ => (m, running)
  | .KEYDOWN =>
    match sym with
    | .K_ESCAPE => (m, false)
    | .K_LEFT =>
      ({ m with inPort1 := m.inPort1 ||| (1 <<< 5),
                inPort2 := m.inPort2 ||| (1 <<< 5) }, running)
    | .K_RIGHT =>
      ({ m with inPort1 := m.inPort1 ||| (1 <<< 6),
                inPort2 := m.inPort2 ||| (1 <<< 6) }, running)
    | .K_SPACE =>
      ({ m with inPort1 := m.inPort1 ||| (1 <<< 4),
                inPort2 := m.inPort2 ||| (1 <<< 4) }, running)
    | .K_1 => ({ m with inPort1 := m.inPort1 ||| (1 <<< 2) }, running)
    | .K_2 => ({ m with inPort1 := m.inPort1 ||| (1 <<< 1) }, running)
    | .K_c => ({ m with inPort1 := m.inPort1 ||| (1 <<< 0) }, running)
    | .K_t => ({ m with inPort2 := m.inPort2 ||| (1 <<< 2) }, running)
    | _ => (m, running)
  | .OTHER => (m, running)

/-! ## Frame buffer -/

/-- One Go slice store `buf[i] = v` with `i : int`: panics (`none`) when the
index is out of range. -/
def sliceStore (buf : List Nat) (i : Int) (v : Nat) : Option (List Nat) :=
  if 0 ≤ i ∧ i < buf.length then some (buf.set i.toNat v) else none

/-- Go `setPixel`: three stores at `index`, `index+1`, `index+2`. -/
def setPixel (m : machineState) (x y : Int) (color : Nat) : Option machineState := do
  let index : Int := (y * windowWidth + x) * 4
  let b0 ← sliceStore m.screenBuffer index color
  let b1 ← sliceStore b0 (index + 1) color
  let b2 ← sliceStore b1 (index + 2) color
  pure { m with screenBuffer := b2 }

/-- The `// Draw Screen` loop nest of `machineRun`.  `Memory` is `cpu.Memory`
(address to byte); the index is converted to `uint16`, and `1<<b` is a `byte`. -/
def drawScreen (Memory : Nat → Nat) (m : machineState) : Option machineState :=
  (List.range 224).foldlM (fun m (ny : Nat) =>
    (List.range 32).foldlM (fun m (nx : Nat) =>
      (List.range 8).foldlM (fun m (b : Nat) =>
        let px : Int := (ny : Int)
        let py : Int := (windowHeight : Int) - ((nx : Int) * 8 + (b : Int)) - 1
        if Memory ((0x2400 + ny * 32 + nx) % 2 ^ 16) &&& ((1 <<< b) % 2 ^ 8) > 0 then
          setPixel m px py 255
        else
          setPixel m px py 0) m) m) m

/-! ## The main loop -/

/-- The part of the external `cpu8080.CPU8080` that `machineRun` reads. -/
structure CPU8080 where
  Memory : Nat → Nat
  IntEnable : Nat

/-- The variables of `machineRun` that live across loop iterations.  `start`
is a time in nanoseconds. -/
structure loopState where
  cpu : CPU8080
  mState : machineState
  running : Bool
  start : Int

/-- The initialisation of `mState` in `machineRun` (Go zero values for the
fields not assigned). -/
def initialMachineState : machineState :=
  { whichInterrupt := 1
    shift0 := 0
    shift1 := 0
    shiftOffset := 0
    inPort1 := 1 <<< 3
    inPort2 := 0
    lastOutPort3 := 0
    lastOutPort5 := 0
    paused := false
    screenBuffer := List.replicate (windowWidth * windowHeight * 4) 0 }

/-- State on entry to the `for running` loop. -/
def initialLoopState (cpu : CPU8080) (start : Int) : loopState :=
  { cpu := cpu, mState := initialMachineState, running := true, start := start }

/-- The scheduler part of one loop iteration (from `t := time.Now()` to
`start = time.Now()`).  `t` and `now` are the two clock readings in
nanoseconds; `Milliseconds()` truncates.  Returns the new loop state and the
interrupt vectors passed to `cpu.GenerateInterrupt`. -/
def schedulerTick (GenerateInterrupt : CPU8080 → Nat → CPU8080) (l : loopState) (t now : Int) :
    Option (loopState × List Nat) :=
  let elapsed : Int := (t - l.start).tdiv 1000000
  if elapsed > 1000 / 240 then
    if l.cpu.IntEnable = 1 then
      let fired : CPU8080 × machineState × List Nat :=
        if l.mState.whichInterrupt = 1 then
          (GenerateInterrupt l.cpu 1, { l.mState with whichInterrupt := 2 }, [1])
        else
          (GenerateInterrupt l.cpu 2, { l.mState with whichInterrupt := 1 }, [2])
      match drawScreen fired.1.Memory fired.2.1 with
      | none => none
      | some m => some ({ l with cpu := fired.1, mState := m, start := now }, fired.2.2)
    else some ({ l with start := now }, [])
  else some (l, [])

/-- What can happen to the loop state, one at a time: an SDL event, the
scheduler, a port access made by the CPU through the two handlers, or the CPU
changing its own registers and memory while it executes. -/
inductive Step where
  | keyboard (type : KeyEventType) (sym : Keycode)
  | quit
  | tick (t now : Int)
  | portIN (port : Nat)
  | portOUT (port value : Nat)
  | cpu (c : CPU8080)

/-- Things the machine asks of its collaborators. -/
inductive Effect where
  | interrupt (vector : Nat)
  | clip (position : Nat)
  deriving DecidableEq, Repr

/-- One step of the loop state; `none` is a run-time panic. -/
def step (GenerateInterrupt : CPU8080 → Nat → CPU8080) (l : loopState) :
    Step → Option (loopState × List Effect)
  | .keyboard type sym =>
    let r := keyboardEvent l.mState l.running type sym
    some ({ l with mState := r.1, running := r.2 }, [])
  | .quit => some ({ l with running := false }, [])
  | .tick t now =>
    match schedulerTick GenerateInterrupt l t now with
    | none => none
    | some r => some (r.1, r.2.map Effect.interrupt)
  | .portIN _ => some (l, [])
  | .portOUT port value =>
    let r := machineOUT l.mState port value
    some ({ l with mState := r.1 }, r.2.map Effect.clip)
  | .cpu c => some ({ l with cpu := c }, [])

/-- Run a sequence of steps, collecting the effects in order. -/
def run (GenerateInterrupt : CPU8080 → Nat → CPU8080) :
    loopState → List Step → Option (loopState × List Effect)
  | l, [] => some (l, [])
  | l, s :: ss =>
    match step GenerateInterrupt l s with
    | none => none
    | some r =>
      match run GenerateInterrupt r.1 ss with
      | none => none
      | some r2 => some (r2.1, r.2 ++ r2.2)

/-- The interrupt vectors among a list of effects, in order. -/
def interrupts : List Effect → List Nat
  | [] => []
  | .interrupt v :: es => v :: interrupts es
  | .clip _ :: es => interrupts es

/-- The clip positions among a list of effects, in order. -/
def clips : List Effect → List Nat
  | [] => []
  | .interrupt _ :: es => clips es
  | .clip i :: es => i :: clips es

/-! ## The control table of the specification -/

/-- Follows the specification's table "Input control -> port bit mapping",
column `inputPort1`: the bit numbers of port 1 a control owns (left 5, right 6,
fire 4, player1-start 2, player2-start 1, coin 0; tilt, quit and unrecognised
controls none). -/
def controlBitsPort1 : Keycode → List Nat
  | .K_LEFT => [5]
  | .K_RIGHT => [6]
  | .K_SPACE => [4]
  | .K_1 => [2]
  | .K_2 => [1]
  | .K_c => [0]
  | .K_t => []
  | .K_ESCAPE => []
  | .K_OTHER => []

/-- Follows the specification's table "Input control -> port bit mapping",
column `inputPort2`: left 5, right 6, fire 4, tilt 2; the other controls none. -/
def controlBitsPort2 : Keycode → List Nat
  | .K_LEFT => [5]
  | .K_RIGHT => [6]
  | .K_SPACE => [4]
  | .K_1 => []
  | .K_2 => []
  | .K_c => []
  | .K_t => [2]
  | .K_ESCAPE => []
  | .K_OTHER => []

/-! ## Auxiliary definitions for the redraw -/

/-- Colour the redraw gives pixel `(x, y)`: 255 when the bit of video memory that
maps to the pixel is set, else 0. -/
def pixelColour (Memory : Nat → Nat) (x y : Nat) : Nat :=
  if (Memory (0x2400 + x * 32 + (255 - y) / 8)).testBit ((255 - y) % 8) then 255 else 0

/-- Body of the innermost `for b` loop of the redraw. -/
def drawBit (Memory : Nat → Nat) (ny nx b : Nat) (m : machineState) : Option machineState :=
  let px : Int := (ny : Int)
  let py : Int := (windowHeight : Int) - ((nx : Int) * 8 + (b : Int)) - 1
  if Memory ((0x2400 + ny * 32 + nx) % 2 ^ 16) &&& ((1 <<< b) % 2 ^ 8) > 0 then
    setPixel m px py 255
  else
    setPixel m px py 0

/-- The `for b` loop of the redraw for one byte of video memory. -/
def drawByte (Memory : Nat → Nat) (ny nx : Nat) (m : machineState) : Option machineState :=
  (List.range 8).foldlM (fun m (b : Nat) => drawBit Memory ny nx b m) m

/-- The `for nx` loop of the redraw for one column. -/
def drawColumn (Memory : Nat → Nat) (ny : Nat) (m : machineState) : Option machineState :=
  (List.range 32).foldlM (fun m (nx : Nat) => drawByte Memory ny nx m) m

/-- Three consecutive stores of one colour. -/
def store3 (buf : List Nat) (i c : Nat) : List Nat :=
  ((buf.set i c).set (i + 1) c).set (i + 2) c

/-- A video memory with exactly one set bit: bit 5 of the byte at column 10,
byte-row 3. -/
def oneBitMemory : Nat → Nat :=
  fun a => if a = 0x2400 + 10 * 32 + 3 then 0x20 else 0

/-- The list `v, 3 - v, v, ...` of length `n`: for `v = 1` it is `1, 2, 1, 2, ...`. -/
def alternating : Nat → Nat → List Nat
  | _, 0 => []
  | v, n + 1 => v :: alternating (3 - v) n

/-- The machine state after a key-down of `K_LEFT` from the initial state. -/
def heldLeft : machineState :=
  (keyboardEvent initialMachineState true .KEYDOWN .K_LEFT).1

/-- The initial machine state with every byte of the frame buffer set to 7. -/
def greyMachineState : machineState :=
  { initialMachineState with screenBuffer := List.replicate (windowWidth * windowHeight * 4) 7 }

/-- A CPU whose interrupt-enable flag is set and whose memory is all zero. -/
def enabledCPU : CPU8080 :=
  { Memory := fun _ => 0, IntEnable := 1 }

/-- An interrupt delivery that leaves the CPU record as it is (the flag stays set). -/
def keepCPU : CPU8080 → Nat → CPU8080 :=
  fun c _ => c

/-- Scheduler polls at the `n` consecutive whole milliseconds `s + 1, ..., s + n`;
both clock readings of a poll are the same instant. -/
def pollEveryMs : Nat → Nat → List Step
  | _, 0 => []
  | s, n + 1 =>
    Step.tick (((s + 1 : Nat) : Int) * 1000000) (((s + 1 : Nat) : Int) * 1000000)
      :: pollEveryMs (s + 1) n

end SpaceInvaders

namespace SpaceInvaders

/-! ## Bit-level helper lemmas -/

theorem and_two_pow_pos (n i : Nat) : n &&& 2 ^ i > 0 ↔ n.testBit i = true := by
  rw [Nat.and_two_pow]
  cases n.testBit i <;> simp

theorem and_two_pow_zero (n i : Nat) : n &&& 2 ^ i = 0 ↔ n.testBit i = false := by
  rw [Nat.and_two_pow]
  cases n.testBit i <;> simp

theorem mem_ite_singleton (p : Prop) [Decidable p] (a c : Nat) :
    c ∈ (if p then [a] else []) ↔ p ∧ c = a := by
  by_cases h : p <;> simp [h]

theorem rising_edge (value last i k : Nat) (hk : k = 2 ^ i) :
    ((value &&& k) > 0 ∧ (last &&& k) = 0) ↔
      (value.testBit i = true ∧ last.testBit i = false) := by
  subst hk
  rw [and_two_pow_pos, and_two_pow_zero]

theorem processSound_port3_mem (m : machineState) (value c : Nat) :
    c ∈ (processSound m 3 value).2 ↔
      c < 4 ∧ value.testBit c = true ∧ m.lastOutPort3.testBit c = false := by
  unfold processSound
  rw [if_pos rfl]
  by_cases h : value = m.lastOutPort3
  · simp [h]
  · simp only [ne_eq, h, if_true, not_false_eq_true, List.mem_append, mem_ite_singleton,
      rising_edge value m.lastOutPort3 0 0x1 rfl, rising_edge value m.lastOutPort3 1 0x2 rfl,
      rising_edge value m.lastOutPort3 2 0x4 rfl, rising_edge value m.lastOutPort3 3 0x8 rfl]
    constructor
    · rintro (((⟨h1, rfl⟩ | ⟨h1, rfl⟩) | ⟨h1, rfl⟩) | ⟨h1, rfl⟩) <;> exact ⟨by decide, h1⟩
    · rintro ⟨hc, h1⟩
      interval_cases c <;> simp [h1]

theorem processSound_port5_mem (m : machineState) (value c : Nat) :
    c ∈ (processSound m 5 value).2 ↔
      ∃ i, i < 5 ∧ c = 4 + i ∧ value.testBit i = true ∧ m.lastOutPort5.testBit i = false := by
  unfold processSound
  rw [if_neg (by decide : ¬ ((5 : Nat) = 3)), if_pos rfl]
  by_cases h : value = m.lastOutPort5
  · simp [h]
  · simp only [ne_eq, h, if_true, not_false_eq_true, List.mem_append, mem_ite_singleton,
      rising_edge value m.lastOutPort5 0 0x1 rfl, rising_edge value m.lastOutPort5 1 0x2 rfl,
      rising_edge value m.lastOutPort5 2 0x4 rfl, rising_edge value m.lastOutPort5 3 0x8 rfl,
      rising_edge value m.lastOutPort5 4 0x10 rfl]
    constructor
    · rintro ((((⟨h1, rfl⟩ | ⟨h1, rfl⟩) | ⟨h1, rfl⟩) | ⟨h1, rfl⟩) | ⟨h1, rfl⟩)
      · exact ⟨0, by decide, rfl, h1⟩
      · exact ⟨1, by decide, rfl, h1⟩
      · exact ⟨2, by decide, rfl, h1⟩
      · exact ⟨3, by decide, rfl, h1⟩
      · exact ⟨4, by decide, rfl, h1⟩
    · rintro ⟨i, hi, rfl, h1⟩
      interval_cases i <;> simp [h1]

/-! ## Shift register -/

/-- C1: for every offset in 0..7 and all bytes v1, v2, from any machine state, after
`machineOUT(4, v1)`, `machineOUT(4, v2)`, `machineOUT(2, offset)` the read `machineIN(3)`
returns `(((v2 << 8) | v1) >> (8 - offset)) & 0xFF`. -/
theorem shift_register_read (m : machineState) (v1 v2 offset : Nat)
    (_hv1 : v1 < 256) (hv2 : v2 < 256) (ho : offset ≤ 7) :
    machineIN (machineOUT (machineOUT (machineOUT m 4 v1).1 4 v2).1 2 offset).1 3
      = (((v2 <<< 8) ||| v1) >>> (8 - offset)) &&& 0xFF := by
  simp only [machineOUT, machineIN]
  have e1 : offset &&& 0x7 = offset := by
    interval_cases offset <;> rfl
  have e2 : (v2 <<< 8) % 2 ^ 16 = v2 <<< 8 := by
    rw [Nat.shiftLeft_eq]; omega
  have e3 : (8 + 2 ^ 8 - offset) % 2 ^ 8 = 8 - offset := by omega
  rw [e1, e2, e3]
  exact Nat.mod_eq_of_lt (Nat.and_lt_two_pow _ (by norm_num))

/-- Instance of C1 at v1 = 0xAB, v2 = 0xCD, offset = 3 from the initial state. -/
theorem shift_register_read_witness :
    (0xAB < 256 ∧ 0xCD < 256 ∧ 3 ≤ 7) ∧
    machineIN (machineOUT (machineOUT (machineOUT initialMachineState 4 0xAB).1 4 0xCD).1 2 3).1 3
      = (((0xCD <<< 8) ||| 0xAB) >>> (8 - 3)) &&& 0xFF :=
  ⟨by decide, shift_register_read initialMachineState 0xAB 0xCD 3 (by decide) (by decide) (by decide)⟩

/-! ## Sound triggers -/

/-- C2: `processSound(3, value)` triggers clip `c` exactly when `c < 4`, bit `c` of
`value` is 1 and bit `c` of the previous byte written to port 3 is 0;
`processSound(5, value)` triggers clip `c` exactly when `c = 4 + i` for some `i < 5`
whose bit is 1 in `value` and 0 in the previous byte written to port 5.  Nothing
else is triggered (falling edges and unmapped bits trigger nothing). -/
theorem processSound_rising_edges (m : machineState) (value : Nat) :
    (∀ c, c ∈ (processSound m 3 value).2 ↔
      c < 4 ∧ value.testBit c = true ∧ m.lastOutPort3.testBit c = false) ∧
    (∀ c, c ∈ (processSound m 5 value).2 ↔
      ∃ i, i < 5 ∧ c = 4 + i ∧ value.testBit i = true ∧ m.lastOutPort5.testBit i = false) :=
  ⟨processSound_port3_mem m value, processSound_port5_mem m value⟩

/-- A second identical write finds `value` equal to the latch and does nothing. -/
theorem processSound_again (m : machineState) (port value : Nat) :
    processSound (processSound m port value).1 port value = ((processSound m port value).1, []) := by
  unfold processSound
  by_cases h3 : port = 3
  · by_cases hv : value = m.lastOutPort3 <;> simp [h3, hv]
  · by_cases h5 : port = 5
    · by_cases hv : value = m.lastOutPort5 <;> simp [h3, h5, hv]
    · simp [h3, h5]

/-- C6: calling `processSound(port, value)` a second time right after
`processSound(port, value)` triggers no clip and leaves the state unchanged (for
every port, in particular 3 and 5); from the initial state, two writes of 0x01 to
port 3 trigger clip 0 exactly once in total. -/
theorem processSound_idempotent (m : machineState) (port value : Nat) :
    (processSound (processSound m port value).1 port value).2 = [] ∧
    (processSound (processSound m port value).1 port value).1 = (processSound m port value).1 ∧
    (processSound initialMachineState 3 0x01).2 ++
      (processSound (processSound initialMachineState 3 0x01).1 3 0x01).2 = [0] := by
  refine ⟨?_, ?_, ?_⟩
  · rw [processSound_again]
  · rw [processSound_again]
  · rw [processSound_again]
    simp [processSound, initialMachineState]

/-- C7: from every state the writes 0x00, 0x01, 0x00, 0x01 to port 3 trigger clip 0
at each write of 0x01 and nothing at the writes of 0x00: clip 0 twice, no other clip. -/
theorem processSound_retrigger (m : machineState) :
    (processSound m 3 0x00).2 = [] ∧
    (processSound (processSound m 3 0x00).1 3 0x01).2 = [0] ∧
    (processSound (processSound (processSound m 3 0x00).1 3 0x01).1 3 0x00).2 = [] ∧
    (processSound (processSound (processSound (processSound m 3 0x00).1 3 0x01).1 3 0x00).1
      3 0x01).2 = [0] ∧
    (processSound m 3 0x00).2 ++
      (processSound (processSound m 3 0x00).1 3 0x01).2 ++
      (processSound (processSound (processSound m 3 0x00).1 3 0x01).1 3 0x00).2 ++
      (processSound (processSound (processSound (processSound m 3 0x00).1 3 0x01).1 3 0x00).1
        3 0x01).2 = [0, 0] := by
  by_cases h : m.lastOutPort3 = 0
  · simp [processSound, h]
  · have h2 : ¬ (0 = m.lastOutPort3) := fun e => h e.symm
    simp [processSound, h, h2]

/-! ## Unmapped ports -/

/-- C9: `machineIN` returns 0 on every port other than 1, 2, 3, `inPort1` on port 1
and `inPort2` on port 2; `machineOUT` on every port other than 2, 3, 4, 5 leaves the
state unchanged and triggers no clip. -/
theorem unmapped_ports (m : machineState) :
    (∀ port, port ≠ 1 → port ≠ 2 → port ≠ 3 → machineIN m port = 0) ∧
    machineIN m 1 = m.inPort1 ∧
    machineIN m 2 = m.inPort2 ∧
    (∀ port value, port ≠ 2 → port ≠ 3 → port ≠ 4 → port ≠ 5 →
      machineOUT m port value = (m, [])) := by
  refine ⟨?_, rfl, rfl, ?_⟩
  · intro port h1 h2 h3
    unfold machineIN
    split <;> first | rfl | contradiction
  · intro port value h2 h3 h4 h5
    unfold machineOUT
    split <;> first | rfl | contradiction

/-- Instance of C9 at ports 0 and 6 of the initial state. -/
theorem unmapped_ports_witness :
    machineIN initialMachineState 0 = 0 ∧
    machineOUT initialMachineState 6 0xFF = (initialMachineState, []) :=
  ⟨(unmapped_ports initialMachineState).1 0 (by decide) (by decide) (by decide),
   (unmapped_ports initialMachineState).2.2.2 6 0xFF (by decide) (by decide) (by decide)
     (by decide)⟩

/-! ## Keyboard events -/

theorem mask_bits : ∀ i < 8, ∀ j < 8, (255 - 2 ^ i).testBit j = !decide (j = i) := by
  decide

theorem byte_testBit_high (p j : Nat) (hp : p < 256) (hj : ¬ j < 8) : p.testBit j = false :=
  Nat.testBit_lt_two_pow (lt_of_lt_of_le hp (by
    calc 256 = 2 ^ 8 := rfl
      _ ≤ 2 ^ j := Nat.pow_le_pow_right (by norm_num) (by omega)))

theorem and_mask_testBit (p i j : Nat) (hp : p < 256) (hi : i < 8) :
    (p &&& (255 - 2 ^ i)).testBit j = (p.testBit j && !decide (j = i)) := by
  rw [Nat.testBit_and]
  by_cases hj : j < 8
  · rw [mask_bits i hi j hj]
  · simp [byte_testBit_high p j hp hj]

theorem or_bit_testBit (p i j : Nat) :
    (p ||| (1 <<< i)).testBit j = (p.testBit j || decide (j = i)) := by
  rw [Nat.testBit_or, Nat.one_shiftLeft, Nat.testBit_two_pow]
  simp [eq_comm]

theorem or_bit_byte (p i : Nat) (hp : p < 256) (hi : i < 8) : p ||| (1 <<< i) < 256 := by
  have h : 1 <<< i < 2 ^ 8 := by
    interval_cases i <;> decide
  exact Nat.or_lt_two_pow (by simpa using hp) h

theorem keyDown_port1_testBit (m : machineState) (running : Bool) (sym : Keycode) (j : Nat) :
    (keyboardEvent m running .KEYDOWN sym).1.inPort1.testBit j
      = (m.inPort1.testBit j || decide (j ∈ controlBitsPort1 sym)) := by
  cases sym <;> simp only [keyboardEvent, controlBitsPort1, List.mem_singleton, List.not_mem_nil,
    decide_False, Bool.or_false] <;> exact or_bit_testBit _ _ j

theorem keyDown_port2_testBit (m : machineState) (running : Bool) (sym : Keycode) (j : Nat) :
    (keyboardEvent m running .KEYDOWN sym).1.inPort2.testBit j
      = (m.inPort2.testBit j || decide (j ∈ controlBitsPort2 sym)) := by
  cases sym <;> simp only [keyboardEvent, controlBitsPort2, List.mem_singleton, List.not_mem_nil,
    decide_False, Bool.or_false] <;> exact or_bit_testBit _ _ j

theorem keyUp_port1_testBit (m : machineState) (running : Bool) (sym : Keycode) (j : Nat)
    (h1 : m.inPort1 < 256) :
    (keyboardEvent m running .KEYUP sym).1.inPort1.testBit j
      = (m.inPort1.testBit j && !decide (j ∈ controlBitsPort1 sym)) := by
  cases sym <;> simp only [keyboardEvent, controlBitsPort1, List.mem_singleton, List.not_mem_nil,
    decide_False, Bool.not_false, Bool.and_true]
  · exact and_mask_testBit m.inPort1 5 j h1 (by decide)
  · exact and_mask_testBit m.inPort1 6 j h1 (by decide)
  · exact and_mask_testBit m.inPort1 4 j h1 (by decide)
  · exact and_mask_testBit m.inPort1 2 j h1 (by decide)
  · exact and_mask_testBit m.inPort1 1 j h1 (by decide)
  · exact and_mask_testBit m.inPort1 0 j h1 (by decide)

theorem keyUp_port2_testBit (m : machineState) (running : Bool) (sym : Keycode) (j : Nat)
    (h2 : m.inPort2 < 256) :
    (keyboardEvent m running .KEYUP sym).1.inPort2.testBit j
      = (m.inPort2.testBit j && !decide (j ∈ controlBitsPort2 sym)) := by
  cases sym <;> simp only [keyboardEvent, controlBitsPort2, List.mem_singleton, List.not_mem_nil,
    decide_False, Bool.not_false, Bool.and_true]
  · exact and_mask_testBit m.inPort2 5 j h2 (by decide)
  · exact and_mask_testBit m.inPort2 6 j h2 (by decide)
  · exact and_mask_testBit m.inPort2 4 j h2 (by decide)
  · exact and_mask_testBit m.inPort2 2 j h2 (by decide)

theorem keyDown_bytes (m : machineState) (running : Bool) (sym : Keycode)
    (h1 : m.inPort1 < 256) (h2 : m.inPort2 < 256) :
    (keyboardEvent m running .KEYDOWN sym).1.inPort1 < 256 ∧
    (keyboardEvent m running .KEYDOWN sym).1.inPort2 < 256 := by
  cases sym <;> simp only [keyboardEvent] <;>
    first
    | exact ⟨h1, h2⟩
    | exact ⟨or_bit_byte _ _ h1 (by decide), or_bit_byte _ _ h2 (by decide)⟩
    | exact ⟨or_bit_byte _ _ h1 (by decide), h2⟩
    | exact ⟨h1, or_bit_byte _ _ h2 (by decide)⟩

/-! ## The redraw: helper lemmas -/

theorem drawScreen_eq (Memory : Nat → Nat) (m : machineState) :
    drawScreen Memory m
      = (List.range 224).foldlM (fun m (ny : Nat) => drawColumn Memory ny m) m := rfl

theorem foldlM_option_preserves {α σ : Type} (f : σ → α → Option σ) (P : σ → Prop) (l : List α)
    (hstep : ∀ a ∈ l, ∀ s s', P s → f s a = some s' → P s') :
    ∀ s s', P s → l.foldlM f s = some s' → P s' := by
  induction l with
  | nil =>
    intro s s' hP h
    simp only [List.foldlM_nil, Option.pure_def, Option.some.injEq] at h
    exact h ▸ hP
  | cons a l ih =>
    intro s s' hP h
    rw [List.foldlM_cons] at h
    cases hf : f s a with
    | none => simp [hf] at h
    | some s1 =>
      simp only [hf, Option.bind_eq_bind, Option.some_bind] at h
      exact ih (fun a' ha' => hstep a' (List.mem_cons_of_mem _ ha')) s1 s'
        (hstep a (List.mem_cons_self _ _) s s1 hP hf) h

theorem foldlM_option_establishes {α σ : Type} (f : σ → α → Option σ) (Q : σ → Prop)
    (l : List α) (a : α) (ha : a ∈ l)
    (hest : ∀ s s', f s a = some s' → Q s')
    (hpres : ∀ a' ∈ l, ∀ s s', Q s → f s a' = some s' → Q s') :
    ∀ s s', l.foldlM f s = some s' → Q s' := by
  induction l with
  | nil => exact absurd ha (List.not_mem_nil a)
  | cons a0 l ih =>
    intro s s' h
    rw [List.foldlM_cons] at h
    cases hf : f s a0 with
    | none => simp [hf] at h
    | some s1 =>
      simp only [hf, Option.bind_eq_bind, Option.some_bind] at h
      have hpres' : ∀ a' ∈ l, ∀ s s', Q s → f s a' = some s' → Q s' :=
        fun a' ha' => hpres a' (List.mem_cons_of_mem _ ha')
      rcases List.mem_cons.mp ha with rfl | hmem
      · exact foldlM_option_preserves f Q l hpres' s1 s' (hest s s1 hf) h
      · exact ih hmem hpres' s1 s' h

theorem foldlM_option_total {α σ : Type} (f : σ → α → Option σ) (Inv : σ → Prop) (l : List α)
    (hstep : ∀ a ∈ l, ∀ s, Inv s → ∃ s', f s a = some s' ∧ Inv s') :
    ∀ s, Inv s → ∃ s', l.foldlM f s = some s' ∧ Inv s' := by
  induction l with
  | nil =>
    intro s hs
    exact ⟨s, rfl, hs⟩
  | cons a l ih =>
    intro s hs
    obtain ⟨s1, hf, h1⟩ := hstep a (List.mem_cons_self _ _) s hs
    obtain ⟨s2, hr, h2⟩ := ih (fun a' ha' => hstep a' (List.mem_cons_of_mem _ ha')) s1 h1
    refine ⟨s2, ?_, h2⟩
    rw [List.foldlM_cons, hf]
    exact hr

theorem sliceStore_nat (buf : List Nat) (i v : Nat) :
    sliceStore buf (i : Int) v = if i < buf.length then some (buf.set i v) else none := by
  unfold sliceStore
  by_cases h : i < buf.length
  · have h' : (0 : Int) ≤ (i : Int) ∧ (i : Int) < (buf.length : Int) := ⟨by omega, by omega⟩
    rw [if_pos h', if_pos h, Int.toNat_ofNat]
  · have h' : ¬ ((0 : Int) ≤ (i : Int) ∧ (i : Int) < (buf.length : Int)) := by omega
    rw [if_neg h', if_neg h]

theorem setPixel_nat (m m' : machineState) (x y c : Nat) :
    setPixel m (x : Int) (y : Int) c = some m' ↔
      (y * 224 + x) * 4 + 2 < m.screenBuffer.length ∧
      m' = { m with screenBuffer := store3 m.screenBuffer ((y * 224 + x) * 4) c } := by
  have e0 : ((y : Int) * (windowWidth : Nat) + (x : Int)) * 4 = (((y * 224 + x) * 4 : Nat) : Int) := by
    simp [windowWidth]
  have e1 : (((y * 224 + x) * 4 : Nat) : Int) + 1 = (((y * 224 + x) * 4 + 1 : Nat) : Int) := by
    push_cast; ring
  have e2 : (((y * 224 + x) * 4 : Nat) : Int) + 2 = (((y * 224 + x) * 4 + 2 : Nat) : Int) := by
    push_cast; ring
  unfold setPixel
  simp only [e0, e1, e2, sliceStore_nat]
  by_cases h : (y * 224 + x) * 4 + 2 < m.screenBuffer.length
  · have h0 : (y * 224 + x) * 4 < m.screenBuffer.length := by omega
    have h1 : (y * 224 + x) * 4 + 1 < m.screenBuffer.length := by omega
    simp [h, h0, h1, store3, eq_comm]
  · simp only [h, false_and, iff_false]
    by_cases h0 : (y * 224 + x) * 4 < m.screenBuffer.length
    · by_cases h1 : (y * 224 + x) * 4 + 1 < m.screenBuffer.length
      · simp [h, h0, h1]
      · simp [h0, h1]
    · simp [h0]

theorem store3_length (buf : List Nat) (i c : Nat) : (store3 buf i c).length = buf.length := by
  simp [store3]

theorem store3_getElem? (buf : List Nat) (i c j : Nat) (h : i + 2 < buf.length) :
    (store3 buf i c)[j]? = if i ≤ j ∧ j ≤ i + 2 then some c else buf[j]? := by
  unfold store3
  simp only [List.getElem?_set, List.length_set]
  by_cases h2 : i + 2 = j
  · subst h2
    simp [h]
  · by_cases h1 : i + 1 = j
    · subst h1
      have h1' : i + 1 < buf.length := by omega
      simp [h1']
    · by_cases h0 : i = j
      · subst h0
        have h0' : i < buf.length := by omega
        simp [h0']
      · have : ¬ (i ≤ j ∧ j ≤ i + 2) := by omega
        simp [h0, h1, h2, this]

theorem drawBit_nat (Memory : Nat → Nat) (ny nx b : Nat) (m m' : machineState)
    (hny : ny < 224) (hnx : nx < 32) (hb : b < 8) :
    drawBit Memory ny nx b m = some m' ↔
      ((255 - (nx * 8 + b)) * 224 + ny) * 4 + 2 < m.screenBuffer.length ∧
      m' = { m with screenBuffer :=
              (store3 m.screenBuffer (((255 - (nx * 8 + b)) * 224 + ny) * 4)
                (pixelColour Memory ny (255 - (nx * 8 + b)))) } := by
  have epy : (windowHeight : Int) - ((nx : Int) * 8 + (b : Int)) - 1
      = ((255 - (nx * 8 + b) : Nat) : Int) := by
    simp only [windowHeight]; omega
  have eaddr : (0x2400 + ny * 32 + nx) % 2 ^ 16 = 0x2400 + ny * 32 + nx := by omega
  have ebit : (1 <<< b) % 2 ^ 8 = 2 ^ b := by
    interval_cases b <;> rfl
  have ediv : (255 - (255 - (nx * 8 + b))) / 8 = nx := by omega
  have emod : (255 - (255 - (nx * 8 + b))) % 8 = b := by omega
  unfold drawBit pixelColour
  simp only [epy, eaddr, ebit, ediv, emod, and_two_pow_pos]
  by_cases hbit : (Memory (0x2400 + ny * 32 + nx)).testBit b = true
  · simp only [hbit, if_true]
    exact setPixel_nat m m' ny _ 255
  · simp only [hbit, if_false]
    exact setPixel_nat m m' ny _ 0

theorem drawByte_preserves (Memory : Nat → Nat) (P : machineState → Prop) (ny nx : Nat)
    (hstep : ∀ b, b < 8 → ∀ s s', P s → drawBit Memory ny nx b s = some s' → P s') :
    ∀ m m', P m → drawByte Memory ny nx m = some m' → P m' :=
  foldlM_option_preserves _ P _ (fun b hb => hstep b (List.mem_range.mp hb))

theorem drawColumn_preserves (Memory : Nat → Nat) (P : machineState → Prop) (ny : Nat)
    (hstep : ∀ nx b, nx < 32 → b < 8 →
      ∀ s s', P s → drawBit Memory ny nx b s = some s' → P s') :
    ∀ m m', P m → drawColumn Memory ny m = some m' → P m' :=
  foldlM_option_preserves _ P _ (fun nx hnx =>
    drawByte_preserves Memory P ny nx (fun b hb => hstep nx b (List.mem_range.mp hnx) hb))

/-- Lift a property preserved by every innermost step to the whole redraw. -/
theorem drawScreen_preserves (Memory : Nat → Nat) (P : machineState → Prop)
    (hstep : ∀ ny nx b, ny < 224 → nx < 32 → b < 8 →
      ∀ s s', P s → drawBit Memory ny nx b s = some s' → P s') :
    ∀ m m', P m → drawScreen Memory m = some m' → P m' := by
  intro m m' hP h
  rw [drawScreen_eq] at h
  exact foldlM_option_preserves _ P _ (fun ny hny =>
    drawColumn_preserves Memory P ny (fun nx b hnx hb => hstep ny nx b (List.mem_range.mp hny) hnx hb))
    m m' hP h

theorem drawBit_length (Memory : Nat → Nat) (ny nx b : Nat) (m m' : machineState)
    (hny : ny < 224) (hnx : nx < 32) (hb : b < 8) (h : drawBit Memory ny nx b m = some m') :
    m'.screenBuffer.length = m.screenBuffer.length := by
  obtain ⟨-, rfl⟩ := (drawBit_nat Memory ny nx b m m' hny hnx hb).mp h
  exact store3_length _ _ _

theorem drawBit_fields (Memory : Nat → Nat) (ny nx b : Nat) (m0 m m' : machineState)
    (hny : ny < 224) (hnx : nx < 32) (hb : b < 8)
    (hm : { m with screenBuffer := m0.screenBuffer } = m0)
    (h : drawBit Memory ny nx b m = some m') :
    { m' with screenBuffer := m0.screenBuffer } = m0 := by
  obtain ⟨-, rfl⟩ := (drawBit_nat Memory ny nx b m m' hny hnx hb).mp h
  exact hm

theorem drawBit_keeps (Memory : Nat → Nat) (ny nx b j : Nat) (m m' : machineState)
    (hny : ny < 224) (hnx : nx < 32) (hb : b < 8) (hj : j % 4 = 3)
    (h : drawBit Memory ny nx b m = some m') :
    m'.screenBuffer[j]? = m.screenBuffer[j]? := by
  obtain ⟨hlen, rfl⟩ := (drawBit_nat Memory ny nx b m m' hny hnx hb).mp h
  show (store3 _ _ _)[j]? = _
  rw [store3_getElem? _ _ _ _ hlen, if_neg (by omega)]

theorem drawBit_preserves_pixel (Memory : Nat → Nat) (ny nx b x y k : Nat) (m m' : machineState)
    (hny : ny < 224) (hnx : nx < 32) (hb : b < 8) (hx : x < 224) (hk : k < 3)
    (hgood : m.screenBuffer[(y * 224 + x) * 4 + k]? = some (pixelColour Memory x y))
    (h : drawBit Memory ny nx b m = some m') :
    m'.screenBuffer[(y * 224 + x) * 4 + k]? = some (pixelColour Memory x y) := by
  obtain ⟨hlen, rfl⟩ := (drawBit_nat Memory ny nx b m m' hny hnx hb).mp h
  show (store3 _ _ _)[(y * 224 + x) * 4 + k]? = _
  rw [store3_getElem? _ _ _ _ hlen]
  by_cases hin : ((255 - (nx * 8 + b)) * 224 + ny) * 4 ≤ (y * 224 + x) * 4 + k ∧
      (y * 224 + x) * 4 + k ≤ ((255 - (nx * 8 + b)) * 224 + ny) * 4 + 2
  · have e1 : ny = x := by omega
    have e2 : 255 - (nx * 8 + b) = y := by omega
    rw [if_pos hin, e1, e2]
  · rw [if_neg hin]
    exact hgood

theorem drawBit_establishes_pixel (Memory : Nat → Nat) (x y k : Nat) (m m' : machineState)
    (hx : x < 224) (hy : y < 256) (hk : k < 3)
    (h : drawBit Memory x ((255 - y) / 8) ((255 - y) % 8) m = some m') :
    m'.screenBuffer[(y * 224 + x) * 4 + k]? = some (pixelColour Memory x y) := by
  have e : 255 - ((255 - y) / 8 * 8 + (255 - y) % 8) = y := by omega
  obtain ⟨hlen, rfl⟩ :=
    (drawBit_nat Memory x _ _ m m' hx (by omega) (Nat.mod_lt _ (by norm_num))).mp h
  show (store3 _ _ _)[(y * 224 + x) * 4 + k]? = _
  rw [e] at hlen ⊢
  rw [store3_getElem? _ _ _ _ hlen, if_pos (by omega)]

theorem drawScreen_establishes_pixel (Memory : Nat → Nat) (x y k : Nat) (m m' : machineState)
    (hx : x < 224) (hy : y < 256) (hk : k < 3) (h : drawScreen Memory m = some m') :
    m'.screenBuffer[(y * 224 + x) * 4 + k]? = some (pixelColour Memory x y) := by
  have hpres : ∀ ny nx b, ny < 224 → nx < 32 → b < 8 → ∀ s s',
      s.screenBuffer[(y * 224 + x) * 4 + k]? = some (pixelColour Memory x y) →
      drawBit Memory ny nx b s = some s' →
      s'.screenBuffer[(y * 224 + x) * 4 + k]? = some (pixelColour Memory x y) :=
    fun ny nx b hny hnx hb s s' hs hbit =>
      drawBit_preserves_pixel Memory ny nx b x y k s s' hny hnx hb hx hk hs hbit
  have hr : (255 - y) / 8 < 32 := by omega
  have hbyte : ∀ t t', drawByte Memory x ((255 - y) / 8) t = some t' →
      t'.screenBuffer[(y * 224 + x) * 4 + k]? = some (pixelColour Memory x y) :=
    foldlM_option_establishes _
      (fun (s : machineState) => s.screenBuffer[(y * 224 + x) * 4 + k]? = some (pixelColour Memory x y))
      _ ((255 - y) % 8) (List.mem_range.mpr (Nat.mod_lt _ (by norm_num)))
      (fun u u' hbit => drawBit_establishes_pixel Memory x y k u u' hx hy hk hbit)
      (fun b hb => hpres x _ b hx hr (List.mem_range.mp hb))
  have hcol : ∀ s s', drawColumn Memory x s = some s' →
      s'.screenBuffer[(y * 224 + x) * 4 + k]? = some (pixelColour Memory x y) :=
    foldlM_option_establishes _
      (fun (s : machineState) => s.screenBuffer[(y * 224 + x) * 4 + k]? = some (pixelColour Memory x y))
      _ ((255 - y) / 8) (List.mem_range.mpr hr) hbyte
      (fun nx hnx => drawByte_preserves Memory _ x nx
        (fun b hb => hpres x nx b hx (List.mem_range.mp hnx) hb))
  rw [drawScreen_eq] at h
  exact foldlM_option_establishes _
    (fun (s : machineState) => s.screenBuffer[(y * 224 + x) * 4 + k]? = some (pixelColour Memory x y))
    _ x (List.mem_range.mpr hx) hcol
    (fun ny hny => drawColumn_preserves Memory _ ny
      (fun nx b hnx hb => hpres ny nx b (List.mem_range.mp hny) hnx hb))
    m m' h

theorem drawScreen_total (Memory : Nat → Nat) (m : machineState)
    (hlen : m.screenBuffer.length = 224 * 256 * 4) :
    ∃ m', drawScreen Memory m = some m' ∧ m'.screenBuffer.length = 224 * 256 * 4 := by
  rw [drawScreen_eq]
  refine foldlM_option_total _ (fun s => s.screenBuffer.length = 224 * 256 * 4) _ ?_ m hlen
  intro ny hny s hs
  refine foldlM_option_total _ (fun s => s.screenBuffer.length = 224 * 256 * 4) _ ?_ s hs
  intro nx hnx t ht
  refine foldlM_option_total _ (fun s => s.screenBuffer.length = 224 * 256 * 4) _ ?_ t ht
  intro b hb u hu
  have hny' := List.mem_range.mp hny
  have hnx' := List.mem_range.mp hnx
  have hb' := List.mem_range.mp hb
  have hu' : u.screenBuffer.length = 224 * 256 * 4 := hu
  refine ⟨_, (drawBit_nat Memory ny nx b u _ hny' hnx' hb').mpr ⟨by omega, rfl⟩, ?_⟩
  show (store3 _ _ _).length = _
  rw [store3_length]
  exact hu'

/-- What one redraw does to a frame buffer of the allocated size. -/
theorem drawScreen_spec (Memory : Nat → Nat) (m : machineState)
    (hlen : m.screenBuffer.length = 224 * 256 * 4) :
    ∃ m', drawScreen Memory m = some m' ∧
      m'.screenBuffer.length = 224 * 256 * 4 ∧
      { m' with screenBuffer := m.screenBuffer } = m ∧
      (∀ x y k, x < 224 → y < 256 → k < 3 →
        m'.screenBuffer[(y * 224 + x) * 4 + k]? = some (pixelColour Memory x y)) ∧
      (∀ j, j % 4 = 3 → m'.screenBuffer[j]? = m.screenBuffer[j]?) := by
  obtain ⟨m', hdraw, hlen'⟩ := drawScreen_total Memory m hlen
  refine ⟨m', hdraw, hlen', ?_, ?_, ?_⟩
  · exact drawScreen_preserves Memory (fun (s : machineState) => { s with screenBuffer := m.screenBuffer } = m)
      (fun ny nx b hny hnx hb s s' hs h => drawBit_fields Memory ny nx b m s s' hny hnx hb hs h)
      m m' rfl hdraw
  · intro x y k hx hy hk
    exact drawScreen_establishes_pixel Memory x y k m m' hx hy hk hdraw
  · intro j hj
    exact drawScreen_preserves Memory (fun (s : machineState) => s.screenBuffer[j]? = m.screenBuffer[j]?)
      (fun ny nx b hny hnx hb s s' hs h =>
        (drawBit_keeps Memory ny nx b j s s' hny hnx hb hj h).trans hs)
      m m' rfl hdraw

/-! ## The redraw: claims -/

/-- C3: for every video memory and every frame buffer of size 224*256*4, the redraw
returns, and afterwards every pixel `(x, y)` with `x < 224`, `y < 256` has its three
colour bytes (offsets 0, 1, 2 of the 4-byte pixel) equal to 255 if bit `b` of
`Memory[0x2400 + x*32 + r]` is set and 0 otherwise, where `r*8 + b = 255 - y`.  In
particular, when the only set bit of the window is bit 5 of column 10, byte-row 3,
the pixel `(10, 226)` is lit and every other pixel is dark. -/
theorem drawScreen_pixels (Memory : Nat → Nat) (m : machineState)
    (hlen : m.screenBuffer.length = 224 * 256 * 4) :
    ∃ m', drawScreen Memory m = some m' ∧
      (∀ x y r b k, x < 224 → y < 256 → b < 8 → r * 8 + b = 255 - y → k < 3 →
        m'.screenBuffer[(y * 224 + x) * 4 + k]?
          = some (if (Memory (0x2400 + x * 32 + r)).testBit b = true then 255 else 0)) ∧
      ((∀ c r b, c < 224 → r < 32 → b < 8 →
          ((Memory (0x2400 + c * 32 + r)).testBit b = true ↔ (c = 10 ∧ r = 3 ∧ b = 5))) →
        ∀ x y k, x < 224 → y < 256 → k < 3 →
          m'.screenBuffer[(y * 224 + x) * 4 + k]?
            = some (if x = 10 ∧ y = 226 then 255 else 0)) := by
  obtain ⟨m', hdraw, -, -, hpix, -⟩ := drawScreen_spec Memory m hlen
  refine ⟨m', hdraw, ?_, ?_⟩
  · intro x y r b k hx hy hb hrb hk
    have ediv : (255 - y) / 8 = r := by omega
    have emod : (255 - y) % 8 = b := by omega
    rw [hpix x y k hx hy hk, pixelColour, ediv, emod]
  · intro hone x y k hx hy hk
    rw [hpix x y k hx hy hk, pixelColour]
    have hiff := hone x ((255 - y) / 8) ((255 - y) % 8) hx (by omega) (Nat.mod_lt _ (by norm_num))
    have hxy : (x = 10 ∧ (255 - y) / 8 = 3 ∧ (255 - y) % 8 = 5) ↔ (x = 10 ∧ y = 226) := by
      omega
    rw [if_congr (hiff.trans hxy) rfl rfl]

theorem oneBitMemory_bits (c r b : Nat) (_hc : c < 224) (hr : r < 32) (hb : b < 8) :
    (oneBitMemory (0x2400 + c * 32 + r)).testBit b = true ↔ (c = 10 ∧ r = 3 ∧ b = 5) := by
  unfold oneBitMemory
  by_cases h : 0x2400 + c * 32 + r = 0x2400 + 10 * 32 + 3
  · have hcr : c = 10 ∧ r = 3 := by omega
    have hbits : ∀ i < 8, (Nat.testBit 0x20 i = true ↔ i = 5) := by decide
    rw [if_pos h, hbits b hb]
    simp [hcr]
  · have hcr : ¬ (c = 10 ∧ r = 3) := by omega
    rw [if_neg h]
    simp only [Nat.zero_testBit, Bool.false_eq_true, false_iff]
    exact fun hh => hcr ⟨hh.1, hh.2.1⟩

theorem initialMachineState_length :
    initialMachineState.screenBuffer.length = 224 * 256 * 4 := by
  show (List.replicate (windowWidth * windowHeight * 4) 0).length = 224 * 256 * 4
  rw [List.length_replicate]
  rfl

/-- Instance of C3: the initial frame buffer and the one-bit video memory; the first
colour byte of pixel `(10, 226)` becomes 255 and that of pixel `(0, 0)` becomes 0. -/
theorem drawScreen_pixels_witness :
    initialMachineState.screenBuffer.length = 224 * 256 * 4 ∧
    ∃ m', drawScreen oneBitMemory initialMachineState = some m' ∧
      m'.screenBuffer[(226 * 224 + 10) * 4 + 0]? = some 255 ∧
      m'.screenBuffer[(0 * 224 + 0) * 4 + 0]? = some 0 := by
  refine ⟨initialMachineState_length, ?_⟩
  obtain ⟨m', hdraw, -, hone⟩ :=
    drawScreen_pixels oneBitMemory initialMachineState initialMachineState_length
  exact ⟨m', hdraw,
    hone oneBitMemory_bits 10 226 0 (by decide) (by decide) (by decide),
    hone oneBitMemory_bits 0 0 0 (by decide) (by decide) (by decide)⟩

/-- C10: for a fixed memory snapshot and a frame buffer of the allocated size, the
redraw returns, and a second redraw right after it returns the very same machine
state, so the buffer after the second redraw is byte-identical to the buffer after
the first. -/
theorem drawScreen_twice (Memory : Nat → Nat) (m : machineState)
    (hlen : m.screenBuffer.length = 224 * 256 * 4) :
    ∃ m1, drawScreen Memory m = some m1 ∧ drawScreen Memory m1 = some m1 ∧
      ∃ m2, drawScreen Memory m1 = some m2 ∧ m2.screenBuffer = m1.screenBuffer := by
  obtain ⟨m1, hdraw1, hlen1, -, hpix1, -⟩ := drawScreen_spec Memory m hlen
  obtain ⟨m2, hdraw2, hlen2, hfields2, hpix2, hkeep2⟩ := drawScreen_spec Memory m1 hlen1
  have hbuf : m2.screenBuffer = m1.screenBuffer := by
    apply List.ext_getElem?
    intro j
    by_cases hj : j < 224 * 256 * 4
    · by_cases h3 : j % 4 = 3
      · exact hkeep2 j h3
      · have ej : (j / 4 / 224 * 224 + j / 4 % 224) * 4 + j % 4 = j := by omega
        have h1 := hpix1 (j / 4 % 224) (j / 4 / 224) (j % 4) (Nat.mod_lt _ (by norm_num))
          (by omega) (by omega)
        have h2 := hpix2 (j / 4 % 224) (j / 4 / 224) (j % 4) (Nat.mod_lt _ (by norm_num))
          (by omega) (by omega)
        rw [ej] at h1 h2
        rw [h1, h2]
    · rw [List.getElem?_eq_none (by omega), List.getElem?_eq_none (by omega)]
  have hm : m2 = m1 := by
    rw [← hbuf] at hfields2
    exact hfields2
  exact ⟨m1, hdraw1, hm ▸ hdraw2, m2, hdraw2, hbuf⟩

/-- Instance of C10 at the initial frame buffer and the one-bit video memory. -/
theorem drawScreen_twice_witness :
    initialMachineState.screenBuffer.length = 224 * 256 * 4 ∧
    ∃ m1, drawScreen oneBitMemory initialMachineState = some m1 ∧
      drawScreen oneBitMemory m1 = some m1 := by
  refine ⟨initialMachineState_length, ?_⟩
  obtain ⟨m1, h1, h2, -⟩ :=
    drawScreen_twice oneBitMemory initialMachineState initialMachineState_length
  exact ⟨m1, h1, h2⟩

/-! ## Keyboard events: claims -/

/-- C8: with byte-valued ports, a key-down event sets in each port exactly the bits
the control owns in the table (left: bit 5 of both ports, right: bit 6 of both, fire:
bit 4 of both, player1-start: bit 2 of port 1, player2-start: bit 1 of port 1, coin:
bit 0 of port 1, tilt: bit 2 of port 2) and a key-up event clears exactly those bits;
every other bit of both ports is unchanged.  A key event for the quit control or
an unrecognised control, and an event that is neither key-down nor key-up, leave
the machine state (both ports included) unchanged. -/
theorem key_event_table (m : machineState) (running : Bool) (sym : Keycode)
    (h1 : m.inPort1 < 256) (h2 : m.inPort2 < 256) :
    (∀ j, (keyboardEvent m running .KEYDOWN sym).1.inPort1.testBit j
        = (m.inPort1.testBit j || decide (j ∈ controlBitsPort1 sym))) ∧
    (∀ j, (keyboardEvent m running .KEYDOWN sym).1.inPort2.testBit j
        = (m.inPort2.testBit j || decide (j ∈ controlBitsPort2 sym))) ∧
    (∀ j, (keyboardEvent m running .KEYUP sym).1.inPort1.testBit j
        = (m.inPort1.testBit j && !decide (j ∈ controlBitsPort1 sym))) ∧
    (∀ j, (keyboardEvent m running .KEYUP sym).1.inPort2.testBit j
        = (m.inPort2.testBit j && !decide (j ∈ controlBitsPort2 sym))) ∧
    (∀ type, (keyboardEvent m running type .K_OTHER).1 = m) ∧
    (∀ type, (keyboardEvent m running type .K_ESCAPE).1 = m) ∧
    (keyboardEvent m running .OTHER sym).1 = m :=
  ⟨keyDown_port1_testBit m running sym, keyDown_port2_testBit m running sym,
   fun j => keyUp_port1_testBit m running sym j h1,
   fun j => keyUp_port2_testBit m running sym j h2,
   fun type => by cases type <;> rfl,
   fun type => by cases type <;> rfl,
   rfl⟩

/-- Instance of C8: the fire key in the initial state. -/
theorem key_event_table_witness :
    (initialMachineState.inPort1 < 256 ∧ initialMachineState.inPort2 < 256) ∧
    (keyboardEvent initialMachineState true .KEYDOWN .K_SPACE).1.inPort1.testBit 4
      = (initialMachineState.inPort1.testBit 4 || decide (4 ∈ controlBitsPort1 .K_SPACE)) :=
  ⟨by decide,
   (key_event_table initialMachineState true .K_SPACE (by decide) (by decide)).1 4⟩

/-- C5 as stated fails: in the state reached by a key-down of `K_LEFT` (port 1 is
0x28), a further key-down of `K_LEFT` followed by its key-up leaves port 1 at 0x08
and port 2 at 0x00, not at their values 0x28 and 0x20 before that press. -/
theorem key_roundtrip_counterexample :
    heldLeft.inPort1 = 0x28 ∧ heldLeft.inPort2 = 0x20 ∧
    (keyboardEvent (keyboardEvent heldLeft true .KEYDOWN .K_LEFT).1 true .KEYUP .K_LEFT).1.inPort1
      = 0x08 ∧
    (keyboardEvent (keyboardEvent heldLeft true .KEYDOWN .K_LEFT).1 true .KEYUP .K_LEFT).1.inPort2
      = 0x00 ∧
    (keyboardEvent (keyboardEvent heldLeft true .KEYDOWN .K_LEFT).1 true .KEYUP .K_LEFT).1.inPort1
      ≠ heldLeft.inPort1 := by
  decide

/-- C5 (amended): for every control and all byte values of `inPort1` and `inPort2` in
which the bits the control owns are clear before the press, a key-down event
followed by a key-up event for the same control leaves `inPort1` and `inPort2`
equal to their pre-press values. -/
theorem key_roundtrip (m : machineState) (r1 r2 : Bool) (sym : Keycode)
    (h1 : m.inPort1 < 256) (h2 : m.inPort2 < 256)
    (hc1 : ∀ j ∈ controlBitsPort1 sym, m.inPort1.testBit j = false)
    (hc2 : ∀ j ∈ controlBitsPort2 sym, m.inPort2.testBit j = false) :
    (keyboardEvent (keyboardEvent m r1 .KEYDOWN sym).1 r2 .KEYUP sym).1.inPort1 = m.inPort1 ∧
    (keyboardEvent (keyboardEvent m r1 .KEYDOWN sym).1 r2 .KEYUP sym).1.inPort2 = m.inPort2 := by
  obtain ⟨hb1, hb2⟩ := keyDown_bytes m r1 sym h1 h2
  constructor
  · apply Nat.eq_of_testBit_eq
    intro j
    rw [keyUp_port1_testBit _ r2 sym j hb1, keyDown_port1_testBit]
    by_cases hj : j ∈ controlBitsPort1 sym
    · simp [hj, hc1 j hj]
    · simp [hj]
  · apply Nat.eq_of_testBit_eq
    intro j
    rw [keyUp_port2_testBit _ r2 sym j hb2, keyDown_port2_testBit]
    by_cases hj : j ∈ controlBitsPort2 sym
    · simp [hj, hc2 j hj]
    · simp [hj]

/-- Instance of amended C5: the left key pressed and released from the initial state. -/
theorem key_roundtrip_witness :
    (keyboardEvent (keyboardEvent initialMachineState true .KEYDOWN .K_LEFT).1 true
        .KEYUP .K_LEFT).1.inPort1 = initialMachineState.inPort1 ∧
    (keyboardEvent (keyboardEvent initialMachineState true .KEYDOWN .K_LEFT).1 true
        .KEYUP .K_LEFT).1.inPort2 = initialMachineState.inPort2 :=
  key_roundtrip initialMachineState true true .K_LEFT (by decide) (by decide)
    (by decide) (by decide)

/-! ## The scheduler -/

theorem interrupts_append (a b : List Effect) :
    interrupts (a ++ b) = interrupts a ++ interrupts b := by
  induction a with
  | nil => rfl
  | cons e a ih =>
    cases e <;> simp [interrupts, ih]

theorem interrupts_map_interrupt (r : List Nat) : interrupts (r.map Effect.interrupt) = r := by
  induction r with
  | nil => rfl
  | cons v r ih => simp [interrupts, ih]

theorem interrupts_map_clip (r : List Nat) : interrupts (r.map Effect.clip) = [] := by
  induction r with
  | nil => rfl
  | cons v r ih => simp [interrupts, ih]

theorem processSound_phase_buffer (m : machineState) (port value : Nat) :
    (processSound m port value).1.whichInterrupt = m.whichInterrupt ∧
    (processSound m port value).1.screenBuffer = m.screenBuffer := by
  unfold processSound
  split_ifs <;> exact ⟨rfl, rfl⟩

theorem machineOUT_phase_buffer (m : machineState) (port value : Nat) :
    (machineOUT m port value).1.whichInterrupt = m.whichInterrupt ∧
    (machineOUT m port value).1.screenBuffer = m.screenBuffer := by
  unfold machineOUT
  split <;> first | exact ⟨rfl, rfl⟩ | exact processSound_phase_buffer m _ value

theorem keyboardEvent_phase_buffer (m : machineState) (running : Bool) (type : KeyEventType)
    (sym : Keycode) :
    (keyboardEvent m running type sym).1.whichInterrupt = m.whichInterrupt ∧
    (keyboardEvent m running type sym).1.screenBuffer = m.screenBuffer := by
  cases type <;> cases sym <;> exact ⟨rfl, rfl⟩

/-- One scheduler tick on a frame buffer of the allocated size returns; it either
requests nothing and keeps the phase, or requests the vector of the current
phase and moves to the other phase. -/
theorem schedulerTick_spec (gen : CPU8080 → Nat → CPU8080) (l : loopState) (t now : Int)
    (hlen : l.mState.screenBuffer.length = 224 * 256 * 4)
    (hw : l.mState.whichInterrupt = 1 ∨ l.mState.whichInterrupt = 2) :
    ∃ l' req, schedulerTick gen l t now = some (l', req) ∧
      l'.mState.screenBuffer.length = 224 * 256 * 4 ∧
      ((req = [] ∧ l'.mState.whichInterrupt = l.mState.whichInterrupt) ∨
       (req = [l.mState.whichInterrupt] ∧
         l'.mState.whichInterrupt = 3 - l.mState.whichInterrupt)) := by
  unfold schedulerTick
  by_cases hel : (t - l.start).tdiv 1000000 > 1000 / 240
  · by_cases hie : l.cpu.IntEnable = 1
    · simp only [hel, hie, if_true]
      by_cases h1 : l.mState.whichInterrupt = 1
      · obtain ⟨m', hdraw, hlen', hfields, -, -⟩ :=
          drawScreen_spec (gen l.cpu 1).Memory { l.mState with whichInterrupt := 2 } hlen
        simp only [h1, if_true, hdraw]
        refine ⟨_, _, rfl, hlen', Or.inr ⟨rfl, ?_⟩⟩
        have := congrArg machineState.whichInterrupt hfields
        exact this
      · have h2 : l.mState.whichInterrupt = 2 := hw.resolve_left h1
        obtain ⟨m', hdraw, hlen', hfields, -, -⟩ :=
          drawScreen_spec (gen l.cpu 2).Memory { l.mState with whichInterrupt := 1 } hlen
        simp only [h1, if_false, hdraw]
        refine ⟨_, _, rfl, hlen', Or.inr ⟨by rw [h2], ?_⟩⟩
        have := congrArg machineState.whichInterrupt hfields
        rw [h2]
        exact this
    · simp only [hel, hie, if_true, if_false]
      exact ⟨_, _, rfl, hlen, Or.inl ⟨rfl, rfl⟩⟩
  · simp only [hel, if_false]
    exact ⟨_, _, rfl, hlen, Or.inl ⟨rfl, rfl⟩⟩

theorem step_spec (gen : CPU8080 → Nat → CPU8080) (l : loopState) (s : Step)
    (hlen : l.mState.screenBuffer.length = 224 * 256 * 4)
    (hw : l.mState.whichInterrupt = 1 ∨ l.mState.whichInterrupt = 2) :
    ∃ l' es, step gen l s = some (l', es) ∧
      l'.mState.screenBuffer.length = 224 * 256 * 4 ∧
      ((interrupts es = [] ∧ l'.mState.whichInterrupt = l.mState.whichInterrupt) ∨
       (interrupts es = [l.mState.whichInterrupt] ∧
         l'.mState.whichInterrupt = 3 - l.mState.whichInterrupt)) := by
  cases s with
  | keyboard type sym =>
    obtain ⟨e1, e2⟩ := keyboardEvent_phase_buffer l.mState l.running type sym
    exact ⟨_, _, rfl, by show (keyboardEvent _ _ _ _).1.screenBuffer.length = _; rw [e2, hlen],
      Or.inl ⟨rfl, e1⟩⟩
  | quit => exact ⟨_, _, rfl, hlen, Or.inl ⟨rfl, rfl⟩⟩
  | tick t now =>
    obtain ⟨l', req, htick, hlen', hcase⟩ := schedulerTick_spec gen l t now hlen hw
    refine ⟨l', req.map Effect.interrupt, ?_, hlen', ?_⟩
    · simp only [step, htick]
    · rw [interrupts_map_interrupt]
      exact hcase
  | portIN port => exact ⟨_, _, rfl, hlen, Or.inl ⟨rfl, rfl⟩⟩
  | portOUT port value =>
    obtain ⟨e1, e2⟩ := machineOUT_phase_buffer l.mState port value
    refine ⟨_, _, rfl, ?_, Or.inl ⟨interrupts_map_clip _, e1⟩⟩
    show (machineOUT _ _ _).1.screenBuffer.length = _
    rw [e2, hlen]
  | cpu c => exact ⟨_, _, rfl, hlen, Or.inl ⟨rfl, rfl⟩⟩

theorem alternating_length (v n : Nat) : (alternating v n).length = n := by
  induction n generalizing v with
  | zero => rfl
  | succ n ih => simp [alternating, ih]

theorem run_alternates (gen : CPU8080 → Nat → CPU8080) (steps : List Step) :
    ∀ l : loopState, l.mState.screenBuffer.length = 224 * 256 * 4 →
      (l.mState.whichInterrupt = 1 ∨ l.mState.whichInterrupt = 2) →
      ∃ l' es, run gen l steps = some (l', es) ∧
        l'.mState.screenBuffer.length = 224 * 256 * 4 ∧
        (l'.mState.whichInterrupt = 1 ∨ l'.mState.whichInterrupt = 2) ∧
        interrupts es = alternating l.mState.whichInterrupt (interrupts es).length := by
  induction steps with
  | nil =>
    intro l hlen hw
    exact ⟨l, [], rfl, hlen, hw, rfl⟩
  | cons s ss ih =>
    intro l hlen hw
    obtain ⟨l1, e1, hstep, hlen1, hcase⟩ := step_spec gen l s hlen hw
    have hw1 : l1.mState.whichInterrupt = 1 ∨ l1.mState.whichInterrupt = 2 := by
      rcases hcase with ⟨-, h⟩ | ⟨-, h⟩ <;> omega
    obtain ⟨l2, e2, hrun, hlen2, hw2, halt⟩ := ih l1 hlen1 hw1
    refine ⟨l2, e1 ++ e2, ?_, hlen2, hw2, ?_⟩
    · simp only [run, hstep, hrun]
    · rw [interrupts_append]
      rcases hcase with ⟨hnil, h⟩ | ⟨hone, h⟩
      · rw [hnil, List.nil_append, ← h]
        exact halt
      · rw [hone, List.singleton_append, List.length_cons, alternating, ← h]
        exact congrArg _ halt

theorem alternating_eq_map (v n : Nat) (hv : v = 1 ∨ v = 2) :
    alternating v n = (List.range n).map (fun k => if k % 2 = 0 then v else 3 - v) := by
  induction n generalizing v with
  | zero => rfl
  | succ n ih =>
    rw [alternating, ih (3 - v) (by omega), List.range_succ_eq_map, List.map_cons, List.map_map]
    congr 1
    apply List.map_congr_left
    intro k _
    have e : 3 - (3 - v) = v := by omega
    simp only [Function.comp, e]
    by_cases hk : k % 2 = 0
    · have : ¬ (k.succ % 2 = 0) := by omega
      rw [if_pos hk, if_neg this]
    · have : k.succ % 2 = 0 := by omega
      rw [if_neg hk, if_pos this]

theorem alternating_chain (v n : Nat) (hv : v = 1 ∨ v = 2) :
    List.Chain' (fun a b => a ≠ b) (alternating v n) := by
  induction n generalizing v with
  | zero => exact List.chain'_nil
  | succ n ih =>
    cases n with
    | zero => exact List.chain'_singleton v
    | succ n =>
      have h := ih (3 - v) (by omega)
      rw [alternating] at h ⊢
      exact List.Chain'.cons (by omega) h

/-! ## The scheduler: claims -/

/-- C4: from the initial loop state, every sequence of steps (scheduler ticks with
arbitrary clock readings, interleaved with arbitrary key events, port accesses and
changes of the CPU state, its interrupt-enable flag included) runs without a
panic, and the sequence of interrupt vectors requested is 1, 2, 1, 2, ...: the
vector at position `k` is 1 for even `k` and 2 for odd `k`, and no two consecutive
requests carry the same vector. -/
theorem interrupt_vectors_alternate (GenerateInterrupt : CPU8080 → Nat → CPU8080)
    (cpu : CPU8080) (start : Int) (steps : List Step) :
    ∃ l es, run GenerateInterrupt (initialLoopState cpu start) steps = some (l, es) ∧
      interrupts es
        = (List.range (interrupts es).length).map (fun k => if k % 2 = 0 then 1 else 2) ∧
      List.Chain' (fun a b => a ≠ b) (interrupts es) := by
  obtain ⟨l, es, hrun, -, -, halt⟩ :=
    run_alternates GenerateInterrupt steps (initialLoopState cpu start)
      initialMachineState_length (Or.inl rfl)
  have hw : (initialLoopState cpu start).mState.whichInterrupt = 1 := rfl
  rw [hw] at halt
  refine ⟨l, es, hrun, ?_, ?_⟩
  · have h := alternating_eq_map 1 (interrupts es).length (Or.inl rfl)
    rw [← halt] at h
    exact h
  · rw [halt]
    exact alternating_chain 1 _ (Or.inl rfl)

/-! ## Frame conditions of the port handlers -/

/-- C15: after `processSound(port, value)` on port 3 (port 5) the last-written byte
of that port equals `value`, whether or not anything changed, and every other
field of the machine state, the latch of the other sound port included, is
unchanged. -/
theorem processSound_latch (m : machineState) (value : Nat) :
    (processSound m 3 value).1 = { m with lastOutPort3 := value } ∧
    (processSound m 5 value).1 = { m with lastOutPort5 := value } ∧
    (processSound m 3 value).1.lastOutPort3 = value ∧
    (processSound m 3 value).1.lastOutPort5 = m.lastOutPort5 ∧
    (processSound m 5 value).1.lastOutPort5 = value ∧
    (processSound m 5 value).1.lastOutPort3 = m.lastOutPort3 := by
  have h3 : (processSound m 3 value).1 = { m with lastOutPort3 := value } := by
    unfold processSound
    rw [if_pos rfl]
    by_cases h : value = m.lastOutPort3
    · rw [if_neg (not_not.mpr h), h]
    · rw [if_pos h]
  have h5 : (processSound m 5 value).1 = { m with lastOutPort5 := value } := by
    unfold processSound
    rw [if_neg (by decide : ¬ ((5 : Nat) = 3)), if_pos rfl]
    by_cases h : value = m.lastOutPort5
    · rw [if_neg (not_not.mpr h), h]
    · rw [if_pos h]
  refine ⟨h3, h5, ?_, ?_, ?_, ?_⟩
  · rw [h3]
  · rw [h3]
  · rw [h5]
  · rw [h5]

/-- C16: `machineOUT(2, v)` changes only `shiftOffset` (to `v & 0x7`), `machineOUT(4, v)`
sets `shift0` to the old `shift1` and `shift1` to `v` and changes nothing else, neither
triggers a clip, and a port read leaves the whole loop state unchanged for every
port (`machineIN` only computes a value from the state). -/
theorem shift_register_frame (GenerateInterrupt : CPU8080 → Nat → CPU8080) (l : loopState)
    (m : machineState) (v port : Nat) :
    machineOUT m 2 v = ({ m with shiftOffset := v &&& 0x7 }, []) ∧
    machineOUT m 4 v = ({ m with shift0 := m.shift1, shift1 := v }, []) ∧
    step GenerateInterrupt l (.portIN port) = some (l, []) :=
  ⟨rfl, rfl, rfl⟩

/-! ## The scheduler gate -/

/-- C14: the scheduler is due when the truncated millisecond count passes the test
`elapsed > 1000 / 240`, that is `elapsed > 4` (at least 1000/240 ms in whole
milliseconds).  A due tick with the interrupt-enable flag off requests no interrupt,
leaves the machine state (phase and frame buffer included) and the CPU unchanged,
and sets the baseline `start` to the second clock reading; a tick that is not due
changes nothing at all and requests no interrupt. -/
theorem scheduler_gate (GenerateInterrupt : CPU8080 → Nat → CPU8080) (l : loopState)
    (t now : Int) :
    ((t - l.start).tdiv 1000000 > 4 → l.cpu.IntEnable ≠ 1 →
      schedulerTick GenerateInterrupt l t now = some ({ l with start := now }, [])) ∧
    ((t - l.start).tdiv 1000000 ≤ 4 →
      schedulerTick GenerateInterrupt l t now = some (l, [])) := by
  constructor
  · intro hdue hoff
    have hdue' : (t - l.start).tdiv 1000000 > 1000 / 240 := hdue
    unfold schedulerTick
    simp only [hdue', hoff, if_true, if_false]
  · intro hidle
    have hidle' : ¬ ((t - l.start).tdiv 1000000 > 1000 / 240) := not_lt.mpr hidle
    unfold schedulerTick
    simp only [hidle', if_false]

/-- Instance of C14: from the initial loop state with the flag off, a tick 5 ms after
the baseline only moves the baseline, and a tick 4 ms after it changes nothing. -/
theorem scheduler_gate_witness :
    schedulerTick keepCPU (initialLoopState { Memory := fun _ => 0, IntEnable := 0 } 0)
        5000000 5000001
      = some ({ initialLoopState { Memory := fun _ => 0, IntEnable := 0 } 0 with
                start := 5000001 }, []) ∧
    schedulerTick keepCPU (initialLoopState { Memory := fun _ => 0, IntEnable := 0 } 0)
        4999999 5000001
      = some (initialLoopState { Memory := fun _ => 0, IntEnable := 0 } 0, []) :=
  ⟨(scheduler_gate keepCPU (initialLoopState { Memory := fun _ => 0, IntEnable := 0 } 0)
      5000000 5000001).1 (by decide) (by decide),
   (scheduler_gate keepCPU (initialLoopState { Memory := fun _ => 0, IntEnable := 0 } 0)
      4999999 5000001).2 (by decide)⟩

/-! ## The redraw: bounds and determinism -/

/-- C17: for every column `c < 224`, byte-row `r < 32` and bit `b < 8` the memory address
`0x2400 + c*32 + r` is at most `0x3FFF` and unchanged by the `uint16` conversion, the
pixel row `256 - (r*8 + b) - 1` lies in `0..255`, every index `(y*224 + c)*4 + k`,
`k < 3`, written by `setPixel` is below `224*256*4`, and the loop body returns on a
buffer of that size and keeps its length; the frame buffer is allocated with that
length, and the whole redraw returns on such a buffer and keeps its length. -/
theorem redraw_in_range (Memory : Nat → Nat) (m : machineState)
    (hlen : m.screenBuffer.length = 224 * 256 * 4) :
    initialMachineState.screenBuffer.length = 224 * 256 * 4 ∧
    (∀ c r b : Nat, c < 224 → r < 32 → b < 8 →
      0x2400 + c * 32 + r ≤ 0x3FFF ∧
      (0x2400 + c * 32 + r) % 2 ^ 16 = 0x2400 + c * 32 + r ∧
      0 ≤ (windowHeight : Int) - ((r : Int) * 8 + (b : Int)) - 1 ∧
      (windowHeight : Int) - ((r : Int) * 8 + (b : Int)) - 1 ≤ 255 ∧
      (∀ k, k < 3 → ((255 - (r * 8 + b)) * 224 + c) * 4 + k < 224 * 256 * 4) ∧
      ∃ m', drawBit Memory c r b m = some m' ∧ m'.screenBuffer.length = 224 * 256 * 4) ∧
    ∃ m', drawScreen Memory m = some m' ∧ m'.screenBuffer.length = 224 * 256 * 4 := by
  refine ⟨initialMachineState_length, ?_, drawScreen_total Memory m hlen⟩
  intro c r b hc hr hb
  refine ⟨by omega, by omega, by simp only [windowHeight]; omega,
    by simp only [windowHeight]; omega, fun k hk => by omega, ?_⟩
  refine ⟨_, (drawBit_nat Memory c r b m _ hc hr hb).mpr ⟨by omega, rfl⟩, ?_⟩
  show (store3 _ _ _).length = _
  rw [store3_length]
  exact hlen

/-- Instance of C17 at the initial frame buffer and the all-zero memory. -/
theorem redraw_in_range_witness :
    initialMachineState.screenBuffer.length = 224 * 256 * 4 ∧
    ∃ m', drawScreen enabledCPU.Memory initialMachineState = some m' ∧
      m'.screenBuffer.length = 224 * 256 * 4 :=
  ⟨initialMachineState_length,
   (redraw_in_range enabledCPU.Memory initialMachineState initialMachineState_length).2.2⟩

theorem greyMachineState_length :
    greyMachineState.screenBuffer.length = 224 * 256 * 4 := by
  show (List.replicate (windowWidth * windowHeight * 4) 7).length = 224 * 256 * 4
  rw [List.length_replicate]
  rfl

/-- C11 as stated fails: the all-zero and the all-7 frame buffers of size 224*256*4,
redrawn from the same memory, still differ (at byte 3, which no `setPixel` writes). -/
theorem drawScreen_two_buffers_counterexample :
    initialMachineState.screenBuffer.length = 224 * 256 * 4 ∧
    greyMachineState.screenBuffer.length = 224 * 256 * 4 ∧
    ∃ m1 m2, drawScreen enabledCPU.Memory initialMachineState = some m1 ∧
      drawScreen enabledCPU.Memory greyMachineState = some m2 ∧
      m1.screenBuffer[3]? = some 0 ∧ m2.screenBuffer[3]? = some 7 ∧
      m1.screenBuffer ≠ m2.screenBuffer := by
  refine ⟨initialMachineState_length, greyMachineState_length, ?_⟩
  obtain ⟨m1, hd1, -, -, -, hk1⟩ :=
    drawScreen_spec enabledCPU.Memory initialMachineState initialMachineState_length
  obtain ⟨m2, hd2, -, -, -, hk2⟩ :=
    drawScreen_spec enabledCPU.Memory greyMachineState greyMachineState_length
  have e1 : m1.screenBuffer[3]? = some 0 := by
    rw [hk1 3 (by decide)]
    show (List.replicate (windowWidth * windowHeight * 4) 0)[3]? = some 0
    rw [List.getElem?_replicate, if_pos (by decide)]
  have e2 : m2.screenBuffer[3]? = some 7 := by
    rw [hk2 3 (by decide)]
    show (List.replicate (windowWidth * windowHeight * 4) 7)[3]? = some 7
    rw [List.getElem?_replicate, if_pos (by decide)]
  refine ⟨m1, m2, hd1, hd2, e1, e2, ?_⟩
  intro h
  rw [h, e2] at e1
  exact absurd e1 (by decide)

/-- C11 (amended): for every memory snapshot and any two frame buffers of size
224*256*4, both redraws return buffers of that size which agree on every byte at
offset 0, 1 or 2 of a pixel (these are determined by memory alone), while each byte
at offset 3 keeps the value it had before the redraw; so the two results are
byte-identical whenever the starting buffers agree on their offset-3 bytes. -/
theorem drawScreen_two_buffers (Memory : Nat → Nat) (m1 m2 : machineState)
    (h1 : m1.screenBuffer.length = 224 * 256 * 4)
    (h2 : m2.screenBuffer.length = 224 * 256 * 4) :
    ∃ r1 r2, drawScreen Memory m1 = some r1 ∧ drawScreen Memory m2 = some r2 ∧
      r1.screenBuffer.length = 224 * 256 * 4 ∧ r2.screenBuffer.length = 224 * 256 * 4 ∧
      (∀ j, j < 224 * 256 * 4 → j % 4 ≠ 3 → r1.screenBuffer[j]? = r2.screenBuffer[j]?) ∧
      (∀ j, j % 4 = 3 → r1.screenBuffer[j]? = m1.screenBuffer[j]? ∧
        r2.screenBuffer[j]? = m2.screenBuffer[j]?) ∧
      ((∀ j, j % 4 = 3 → m1.screenBuffer[j]? = m2.screenBuffer[j]?) →
        r1.screenBuffer = r2.screenBuffer) := by
  obtain ⟨r1, hd1, hl1, -, hp1, hk1⟩ := drawScreen_spec Memory m1 h1
  obtain ⟨r2, hd2, hl2, -, hp2, hk2⟩ := drawScreen_spec Memory m2 h2
  have hcol : ∀ j, j < 224 * 256 * 4 → j % 4 ≠ 3 →
      r1.screenBuffer[j]? = r2.screenBuffer[j]? := by
    intro j hj h3
    have ej : (j / 4 / 224 * 224 + j / 4 % 224) * 4 + j % 4 = j := by omega
    have a1 := hp1 (j / 4 % 224) (j / 4 / 224) (j % 4) (Nat.mod_lt _ (by norm_num))
      (by omega) (by omega)
    have a2 := hp2 (j / 4 % 224) (j / 4 / 224) (j % 4) (Nat.mod_lt _ (by norm_num))
      (by omega) (by omega)
    rw [ej] at a1 a2
    rw [a1, a2]
  refine ⟨r1, r2, hd1, hd2, hl1, hl2, hcol, fun j hj => ⟨hk1 j hj, hk2 j hj⟩, ?_⟩
  intro hsame
  apply List.ext_getElem?
  intro j
  by_cases hj : j < 224 * 256 * 4
  · by_cases h3 : j % 4 = 3
    · rw [hk1 j h3, hk2 j h3]
      exact hsame j h3
    · exact hcol j hj h3
  · rw [List.getElem?_eq_none (by omega), List.getElem?_eq_none (by omega)]

/-- Instance of amended C11: the all-zero and the all-7 frame buffers redrawn from the
one-bit memory agree on the first colour byte of pixel `(0, 0)`. -/
theorem drawScreen_two_buffers_witness :
    (initialMachineState.screenBuffer.length = 224 * 256 * 4 ∧
      greyMachineState.screenBuffer.length = 224 * 256 * 4) ∧
    ∃ r1 r2, drawScreen oneBitMemory initialMachineState = some r1 ∧
      drawScreen oneBitMemory greyMachineState = some r2 ∧
      r1.screenBuffer[0]? = r2.screenBuffer[0]? := by
  refine ⟨⟨initialMachineState_length, greyMachineState_length⟩, ?_⟩
  obtain ⟨r1, r2, hd1, hd2, -, -, hcol, -, -⟩ :=
    drawScreen_two_buffers oneBitMemory initialMachineState greyMachineState
      initialMachineState_length greyMachineState_length
  exact ⟨r1, r2, hd1, hd2, hcol 0 (by decide) (by decide)⟩

/-! ## Invariants of the reachable states -/

theorem drawScreen_fields (Memory : Nat → Nat) (m m' : machineState)
    (h : drawScreen Memory m = some m') :
    { m' with screenBuffer := m.screenBuffer } = m :=
  drawScreen_preserves Memory (fun (s : machineState) => { s with screenBuffer := m.screenBuffer } = m)
    (fun ny nx b hny hnx hb s s' hs hd => drawBit_fields Memory ny nx b m s s' hny hnx hb hs hd)
    m m' rfl h

/-- A scheduler tick changes at most the phase and the frame buffer of the machine
state. -/
theorem schedulerTick_mState (gen : CPU8080 → Nat → CPU8080) (l l' : loopState) (t now : Int)
    (req : List Nat) (h : schedulerTick gen l t now = some (l', req)) :
    ∃ w buf, l'.mState = { l.mState with whichInterrupt := w, screenBuffer := buf } := by
  unfold schedulerTick at h
  by_cases hel : (t - l.start).tdiv 1000000 > 1000 / 240
  · by_cases hie : l.cpu.IntEnable = 1
    · simp only [hel, hie, if_true] at h
      split at h
      · exact absurd h (by simp)
      · rename_i m' hd
        have hf := drawScreen_fields _ _ _ hd
        simp only [Option.some.injEq, Prod.mk.injEq] at h
        obtain ⟨rfl, -⟩ := h
        refine ⟨m'.whichInterrupt, m'.screenBuffer, ?_⟩
        show m' = _
        by_cases h1 : l.mState.whichInterrupt = 1
        · simp only [h1, if_true] at hf
          rcases m' with ⟨a0, a1, a2, a3, a4, a5, a6, a7, a8, a9⟩
          rcases hm : l.mState with ⟨b0, b1, b2, b3, b4, b5, b6, b7, b8, b9⟩
          rw [hm] at hf
          simp only [machineState.mk.injEq] at hf ⊢
          obtain ⟨-, e1, e2, e3, e4, e5, e6, e7, e8, -⟩ := hf
          exact ⟨trivial, e1, e2, e3, e4, e5, e6, e7, e8, trivial⟩
        · simp only [h1, if_false] at hf
          rcases m' with ⟨a0, a1, a2, a3, a4, a5, a6, a7, a8, a9⟩
          rcases hm : l.mState with ⟨b0, b1, b2, b3, b4, b5, b6, b7, b8, b9⟩
          rw [hm] at hf
          simp only [machineState.mk.injEq] at hf ⊢
          obtain ⟨-, e1, e2, e3, e4, e5, e6, e7, e8, -⟩ := hf
          exact ⟨trivial, e1, e2, e3, e4, e5, e6, e7, e8, trivial⟩
    · simp only [hel, hie, if_true, if_false, Option.some.injEq, Prod.mk.injEq] at h
      obtain ⟨rfl, -⟩ := h
      exact ⟨l.mState.whichInterrupt, l.mState.screenBuffer, rfl⟩
  · simp only [hel, if_false, Option.some.injEq, Prod.mk.injEq] at h
    obtain ⟨rfl, -⟩ := h
    exact ⟨l.mState.whichInterrupt, l.mState.screenBuffer, rfl⟩

theorem step_preserves (gen : CPU8080 → Nat → CPU8080) (P : machineState → Prop)
    (hkey : ∀ m running type sym, P m → P (keyboardEvent m running type sym).1)
    (hout : ∀ m port value, P m → P (machineOUT m port value).1)
    (hframe : ∀ m w buf, P m → P { m with whichInterrupt := w, screenBuffer := buf })
    (l : loopState) (s : Step) (r : loopState × List Effect)
    (hP : P l.mState) (h : step gen l s = some r) : P r.1.mState := by
  cases s with
  | keyboard type sym =>
    simp only [step, Option.some.injEq] at h
    subst h
    exact hkey _ _ _ _ hP
  | quit =>
    simp only [step, Option.some.injEq] at h
    subst h
    exact hP
  | tick t now =>
    simp only [step] at h
    split at h
    · exact absurd h (by simp)
    · rename_i r0 htick
      simp only [Option.some.injEq] at h
      subst h
      obtain ⟨w, buf, hm⟩ := schedulerTick_mState gen l r0.1 t now r0.2 htick
      show P r0.1.mState
      rw [hm]
      exact hframe _ _ _ hP
  | portIN port =>
    simp only [step, Option.some.injEq] at h
    subst h
    exact hP
  | portOUT port value =>
    simp only [step, Option.some.injEq] at h
    subst h
    exact hout _ _ _ hP
  | cpu c =>
    simp only [step, Option.some.injEq] at h
    subst h
    exact hP

/-- A property of the machine state that key events and port writes preserve and
that does not depend on the phase or the frame buffer holds along every run. -/
theorem run_preserves (gen : CPU8080 → Nat → CPU8080) (P : machineState → Prop)
    (hkey : ∀ m running type sym, P m → P (keyboardEvent m running type sym).1)
    (hout : ∀ m port value, P m → P (machineOUT m port value).1)
    (hframe : ∀ m w buf, P m → P { m with whichInterrupt := w, screenBuffer := buf })
    (steps : List Step) :
    ∀ (l : loopState) (r : loopState × List Effect),
      P l.mState → run gen l steps = some r → P r.1.mState := by
  induction steps with
  | nil =>
    intro l r hP h
    simp only [run, Option.some.injEq] at h
    subst h
    exact hP
  | cons s ss ih =>
    intro l r hP h
    simp only [run] at h
    split at h
    · exact absurd h (by simp)
    · rename_i r1 hstep
      split at h
      · exact absurd h (by simp)
      · rename_i r2 hrun
        simp only [Option.some.injEq] at h
        subst h
        exact ih r1.1 r2 (step_preserves gen P hkey hout hframe l s r1 hP hstep) hrun

theorem processSound_inputs (m : machineState) (port value : Nat) :
    (processSound m port value).1.shiftOffset = m.shiftOffset ∧
    (processSound m port value).1.inPort1 = m.inPort1 ∧
    (processSound m port value).1.inPort2 = m.inPort2 := by
  unfold processSound
  split_ifs <;> exact ⟨rfl, rfl, rfl⟩

theorem machineOUT_ports (m : machineState) (port value : Nat) :
    (machineOUT m port value).1.inPort1 = m.inPort1 ∧
    (machineOUT m port value).1.inPort2 = m.inPort2 := by
  unfold machineOUT
  split <;> first | exact ⟨rfl, rfl⟩ | exact (processSound_inputs m _ value).2

theorem machineOUT_shiftOffset_le (m : machineState) (port value : Nat)
    (h : m.shiftOffset ≤ 7) : (machineOUT m port value).1.shiftOffset ≤ 7 := by
  unfold machineOUT
  split
  · exact Nat.and_le_right
  · rw [(processSound_inputs m _ value).1]; exact h
  · exact h
  · rw [(processSound_inputs m _ value).1]; exact h
  · exact h

theorem keyboardEvent_shiftOffset (m : machineState) (running : Bool) (type : KeyEventType)
    (sym : Keycode) : (keyboardEvent m running type sym).1.shiftOffset = m.shiftOffset := by
  cases type <;> cases sym <;> rfl

theorem keyUp_bytes (m : machineState) (running : Bool) (sym : Keycode)
    (h1 : m.inPort1 < 256) (h2 : m.inPort2 < 256) :
    (keyboardEvent m running .KEYUP sym).1.inPort1 < 256 ∧
    (keyboardEvent m running .KEYUP sym).1.inPort2 < 256 := by
  cases sym <;> simp only [keyboardEvent] <;>
    first
    | exact ⟨h1, h2⟩
    | exact ⟨lt_of_le_of_lt Nat.and_le_left h1, lt_of_le_of_lt Nat.and_le_left h2⟩
    | exact ⟨lt_of_le_of_lt Nat.and_le_left h1, h2⟩
    | exact ⟨h1, lt_of_le_of_lt Nat.and_le_left h2⟩

theorem keyboardEvent_bytes (m : machineState) (running : Bool) (type : KeyEventType)
    (sym : Keycode) (h1 : m.inPort1 < 256) (h2 : m.inPort2 < 256) :
    (keyboardEvent m running type sym).1.inPort1 < 256 ∧
    (keyboardEvent m running type sym).1.inPort2 < 256 := by
  cases type with
  | KEYUP => exact keyUp_bytes m running sym h1 h2
  | KEYDOWN => exact keyDown_bytes m running sym h1 h2
  | OTHER => exact ⟨h1, h2⟩

theorem controlBitsPort1_subset (sym : Keycode) (j : Nat) (hj : j ∉ [0, 1, 2, 4, 5, 6]) :
    j ∉ controlBitsPort1 sym := by
  cases sym <;> simp only [controlBitsPort1, List.mem_singleton, List.not_mem_nil,
    not_false_eq_true] <;> intro h <;> subst h <;> exact absurd hj (by decide)

theorem controlBitsPort2_subset (sym : Keycode) (j : Nat) (hj : j ∉ [2, 4, 5, 6]) :
    j ∉ controlBitsPort2 sym := by
  cases sym <;> simp only [controlBitsPort2, List.mem_singleton, List.not_mem_nil,
    not_false_eq_true] <;> intro h <;> subst h <;> exact absurd hj (by decide)

theorem keyboardEvent_port1_other_bits (m : machineState) (running : Bool)
    (type : KeyEventType) (sym : Keycode) (j : Nat) (h1 : m.inPort1 < 256)
    (hj : j ∉ [0, 1, 2, 4, 5, 6]) :
    (keyboardEvent m running type sym).1.inPort1.testBit j = m.inPort1.testBit j := by
  have hn := controlBitsPort1_subset sym j hj
  cases type with
  | KEYUP => rw [keyUp_port1_testBit m running sym j h1]; simp [hn]
  | KEYDOWN => rw [keyDown_port1_testBit m running sym j]; simp [hn]
  | OTHER => rfl

theorem keyboardEvent_port2_other_bits (m : machineState) (running : Bool)
    (type : KeyEventType) (sym : Keycode) (j : Nat) (h2 : m.inPort2 < 256)
    (hj : j ∉ [2, 4, 5, 6]) :
    (keyboardEvent m running type sym).1.inPort2.testBit j = m.inPort2.testBit j := by
  have hn := controlBitsPort2_subset sym j hj
  cases type with
  | KEYUP => rw [keyUp_port2_testBit m running sym j h2]; simp [hn]
  | KEYDOWN => rw [keyDown_port2_testBit m running sym j]; simp [hn]
  | OTHER => rfl

/-- Totality of a run from the initial loop state. -/
theorem run_initial_total (gen : CPU8080 → Nat → CPU8080) (cpu : CPU8080) (start : Int)
    (steps : List Step) :
    ∃ r, run gen (initialLoopState cpu start) steps = some r := by
  obtain ⟨l, es, hrun, -⟩ :=
    run_alternates gen steps (initialLoopState cpu start) initialMachineState_length (Or.inl rfl)
  exact ⟨(l, es), hrun⟩

/-- C13: `shiftOffset` is at most 7 in the initial state; `machineOUT` on any port keeps
it at most 7, a key event and a port read do not change it, and `machineOUT(2, v)` sets
it to `v & 0x7`, which is at most 7.  Hence in every state reached from the initial
loop state by any run, `shiftOffset` is at most 7 and the shift amount
`8 - shiftOffset` computed in `uint8` by `machineIN(3)` lies in 1..8 and equals the
true difference (no wrap-around). -/
theorem shiftOffset_range (GenerateInterrupt : CPU8080 → Nat → CPU8080) (cpu : CPU8080)
    (start : Int) (steps : List Step) :
    initialMachineState.shiftOffset ≤ 7 ∧
    (∀ m port value, m.shiftOffset ≤ 7 → (machineOUT m port value).1.shiftOffset ≤ 7) ∧
    (∀ m running type sym, (keyboardEvent m running type sym).1.shiftOffset = m.shiftOffset) ∧
    (∀ l port, step GenerateInterrupt l (.portIN port) = some (l, [])) ∧
    (∀ m v, (machineOUT m 2 v).1.shiftOffset = v &&& 0x7 ∧ v &&& 0x7 ≤ 7) ∧
    ∃ l es, run GenerateInterrupt (initialLoopState cpu start) steps = some (l, es) ∧
      l.mState.shiftOffset ≤ 7 ∧
      1 ≤ (8 + 2 ^ 8 - l.mState.shiftOffset) % 2 ^ 8 ∧
      (8 + 2 ^ 8 - l.mState.shiftOffset) % 2 ^ 8 ≤ 8 ∧
      (8 + 2 ^ 8 - l.mState.shiftOffset) % 2 ^ 8 = 8 - l.mState.shiftOffset := by
  refine ⟨by decide, machineOUT_shiftOffset_le, keyboardEvent_shiftOffset, fun _ _ => rfl,
    fun m v => ⟨rfl, Nat.and_le_right⟩, ?_⟩
  obtain ⟨r, hrun⟩ := run_initial_total GenerateInterrupt cpu start steps
  have hle : r.1.mState.shiftOffset ≤ 7 :=
    run_preserves GenerateInterrupt (fun (m : machineState) => m.shiftOffset ≤ 7)
      (fun m running type sym h => by
        show (keyboardEvent m running type sym).1.shiftOffset ≤ 7
        rw [keyboardEvent_shiftOffset]; exact h)
      (fun m port value h => machineOUT_shiftOffset_le m port value h)
      (fun m w buf h => h)
      steps (initialLoopState cpu start) r
      (show initialMachineState.shiftOffset ≤ 7 by decide) hrun
  refine ⟨r.1, r.2, hrun, hle, ?_, ?_, ?_⟩ <;> omega

/-- Instance of C13: a write of 0xFF to port 2 in the initial state. -/
theorem shiftOffset_range_witness :
    initialMachineState.shiftOffset ≤ 7 ∧
    (machineOUT initialMachineState 2 0xFF).1.shiftOffset ≤ 7 :=
  ⟨by decide,
   (shiftOffset_range keepCPU enabledCPU 0 []).2.1 initialMachineState 2 0xFF (by decide)⟩

/-- C18: in every state reached from the initial loop state (`inPort1 = 0x08`,
`inPort2 = 0`) by any run (key events, port reads and writes, and also scheduler
ticks and CPU changes), bit 3 of `inPort1` is set, bit 7 of `inPort1` is clear and bits
0, 1, 3, 7 of `inPort2` are clear.  A key event on byte-valued ports leaves every bit
of `inPort1` other than 0, 1, 2, 4, 5, 6 and every bit of `inPort2` other than 2, 4, 5, 6 as
it was, and `machineOUT` never changes either input port (a port read changes
nothing). -/
theorem input_port_bits (GenerateInterrupt : CPU8080 → Nat → CPU8080) (cpu : CPU8080)
    (start : Int) (steps : List Step) :
    (initialMachineState.inPort1 = 0x08 ∧ initialMachineState.inPort2 = 0) ∧
    (∃ l es, run GenerateInterrupt (initialLoopState cpu start) steps = some (l, es) ∧
      l.mState.inPort1.testBit 3 = true ∧ l.mState.inPort1.testBit 7 = false ∧
      l.mState.inPort2.testBit 0 = false ∧ l.mState.inPort2.testBit 1 = false ∧
      l.mState.inPort2.testBit 3 = false ∧ l.mState.inPort2.testBit 7 = false) ∧
    (∀ m running type sym j, m.inPort1 < 256 → m.inPort2 < 256 →
      (j ∉ [0, 1, 2, 4, 5, 6] →
        (keyboardEvent m running type sym).1.inPort1.testBit j = m.inPort1.testBit j) ∧
      (j ∉ [2, 4, 5, 6] →
        (keyboardEvent m running type sym).1.inPort2.testBit j = m.inPort2.testBit j)) ∧
    (∀ m port value, (machineOUT m port value).1.inPort1 = m.inPort1 ∧
      (machineOUT m port value).1.inPort2 = m.inPort2) ∧
    (∀ l port, step GenerateInterrupt l (.portIN port) = some (l, [])) := by
  refine ⟨⟨by decide, by decide⟩, ?_, ?_, machineOUT_ports, fun _ _ => rfl⟩
  · obtain ⟨r, hrun⟩ := run_initial_total GenerateInterrupt cpu start steps
    have hinv := run_preserves GenerateInterrupt
      (fun (m : machineState) => m.inPort1 < 256 ∧ m.inPort2 < 256 ∧
        m.inPort1.testBit 3 = true ∧ m.inPort1.testBit 7 = false ∧
        m.inPort2.testBit 0 = false ∧ m.inPort2.testBit 1 = false ∧
        m.inPort2.testBit 3 = false ∧ m.inPort2.testBit 7 = false)
      (fun m running type sym h => by
        obtain ⟨h1, h2, a3, a7, b0, b1, b3, b7⟩ := h
        obtain ⟨g1, g2⟩ := keyboardEvent_bytes m running type sym h1 h2
        refine ⟨g1, g2, ?_, ?_, ?_, ?_, ?_, ?_⟩
        · rw [keyboardEvent_port1_other_bits m running type sym 3 h1 (by decide)]; exact a3
        · rw [keyboardEvent_port1_other_bits m running type sym 7 h1 (by decide)]; exact a7
        · rw [keyboardEvent_port2_other_bits m running type sym 0 h2 (by decide)]; exact b0
        · rw [keyboardEvent_port2_other_bits m running type sym 1 h2 (by decide)]; exact b1
        · rw [keyboardEvent_port2_other_bits m running type sym 3 h2 (by decide)]; exact b3
        · rw [keyboardEvent_port2_other_bits m running type sym 7 h2 (by decide)]; exact b7)
      (fun m port value h => by
        obtain ⟨e1, e2⟩ := machineOUT_ports m port value
        show (machineOUT m port value).1.inPort1 < 256 ∧ _
        rw [e1, e2]
        exact h)
      (fun m w buf h => h)
      steps (initialLoopState cpu start) r
      (show initialMachineState.inPort1 < 256 ∧ initialMachineState.inPort2 < 256 ∧
        initialMachineState.inPort1.testBit 3 = true ∧
        initialMachineState.inPort1.testBit 7 = false ∧
        initialMachineState.inPort2.testBit 0 = false ∧
        initialMachineState.inPort2.testBit 1 = false ∧
        initialMachineState.inPort2.testBit 3 = false ∧
        initialMachineState.inPort2.testBit 7 = false by decide) hrun
    exact ⟨r.1, r.2, hrun, hinv.2.2⟩
  · intro m running type sym j h1 h2
    exact ⟨keyboardEvent_port1_other_bits m running type sym j h1,
      keyboardEvent_port2_other_bits m running type sym j h2⟩

/-- Instance of C18: bit 3 of port 1 across a key-down of the fire key in the initial
state. -/
theorem input_port_bits_witness :
    (initialMachineState.inPort1 < 256 ∧ initialMachineState.inPort2 < 256) ∧
    (keyboardEvent initialMachineState true .KEYDOWN .K_SPACE).1.inPort1.testBit 3
      = initialMachineState.inPort1.testBit 3 :=
  ⟨by decide,
   ((input_port_bits keepCPU enabledCPU 0 []).2.2.1 initialMachineState true .KEYDOWN
      .K_SPACE 3 (by decide) (by decide)).1 (by decide)⟩

/-! ## Cadence of the scheduler -/

theorem schedulerTick_idle (gen : CPU8080 → Nat → CPU8080) (l : loopState) (t now : Int)
    (h : (t - l.start).tdiv 1000000 ≤ 4) : schedulerTick gen l t now = some (l, []) := by
  have h' : ¬ ((t - l.start).tdiv 1000000 > 1000 / 240) := not_lt.mpr h
  unfold schedulerTick
  simp only [h', if_false]

theorem schedulerTick_fire (gen : CPU8080 → Nat → CPU8080) (l : loopState) (t now : Int)
    (hlen : l.mState.screenBuffer.length = 224 * 256 * 4)
    (hw : l.mState.whichInterrupt = 1 ∨ l.mState.whichInterrupt = 2)
    (hdue : (t - l.start).tdiv 1000000 > 4) (hie : l.cpu.IntEnable = 1) :
    ∃ m', schedulerTick gen l t now
        = some ({ l with cpu := gen l.cpu l.mState.whichInterrupt, mState := m', start := now },
            [l.mState.whichInterrupt]) ∧
      m'.screenBuffer.length = 224 * 256 * 4 ∧
      m'.whichInterrupt = 3 - l.mState.whichInterrupt := by
  have hdue' : (t - l.start).tdiv 1000000 > 1000 / 240 := hdue
  unfold schedulerTick
  simp only [hdue', hie, if_true]
  rcases hw with h1 | h2
  · obtain ⟨m', hdraw, hlen', hfields, -, -⟩ :=
      drawScreen_spec (gen l.cpu 1).Memory { l.mState with whichInterrupt := 2 } hlen
    refine ⟨m', ?_, hlen', ?_⟩
    · simp only [h1, if_true, hdraw]
    · rw [h1]
      exact congrArg machineState.whichInterrupt hfields
  · have hne : ¬ (l.mState.whichInterrupt = 1) := by omega
    obtain ⟨m', hdraw, hlen', hfields, -, -⟩ :=
      drawScreen_spec (gen l.cpu 2).Memory { l.mState with whichInterrupt := 1 } hlen
    refine ⟨m', ?_, hlen', ?_⟩
    · simp only [hne, if_false, hdraw]
      rw [h2]
    · rw [h2]
      exact congrArg machineState.whichInterrupt hfields

theorem elapsed_ms (a b : Nat) (h : b ≤ a) :
    (((a : Nat) : Int) * 1000000 - ((b : Nat) : Int) * 1000000).tdiv 1000000
      = ((a - b : Nat) : Int) := by
  have e : ((a : Nat) : Int) * 1000000 - ((b : Nat) : Int) * 1000000
      = ((a - b : Nat) : Int) * 1000000 := by
    push_cast [h]; ring
  rw [e, Int.mul_tdiv_cancel _ (by decide)]

theorem run_append (gen : CPU8080 → Nat → CPU8080) (xs ys : List Step) :
    ∀ (l : loopState) (r1 r2 : loopState × List Effect),
      run gen l xs = some r1 → run gen r1.1 ys = some r2 →
      run gen l (xs ++ ys) = some (r2.1, r1.2 ++ r2.2) := by
  induction xs with
  | nil =>
    intro l r1 r2 h1 h2
    simp only [run, Option.some.injEq] at h1
    subst h1
    simpa using h2
  | cons s ss ih =>
    intro l r1 r2 h1 h2
    simp only [run] at h1
    split at h1
    · exact absurd h1 (by simp)
    · rename_i q hstep
      split at h1
      · exact absurd h1 (by simp)
      · rename_i q2 hrun
        simp only [Option.some.injEq] at h1
        subst h1
        have h := ih q.1 q2 r2 hrun h2
        have e : run gen l (s :: (ss ++ ys)) = some (r2.1, q.2 ++ (q2.2 ++ r2.2)) := by
          simp only [run, hstep, h]
        rw [List.cons_append, e, List.append_assoc]

theorem pollEveryMs_append (a b : Nat) :
    ∀ s, pollEveryMs s (a + b) = pollEveryMs s a ++ pollEveryMs (s + a) b := by
  induction a with
  | zero =>
    intro s
    simp [pollEveryMs]
  | succ a ih =>
    intro s
    have e : a + 1 + b = (a + b) + 1 := by omega
    have e2 : s + 1 + a = s + (a + 1) := by omega
    rw [e, pollEveryMs, pollEveryMs, ih (s + 1), e2, List.cons_append]

theorem run_idle_polls (gen : CPU8080 → Nat → CPU8080) (l : loopState) (s0 : Nat)
    (hstart : l.start = ((s0 : Nat) : Int) * 1000000) (n : Nat) :
    ∀ s, s0 ≤ s → s + n ≤ s0 + 4 → run gen l (pollEveryMs s n) = some (l, []) := by
  induction n with
  | zero =>
    intro s _ _
    rfl
  | succ n ih =>
    intro s hs hn
    have hel : ((((s + 1 : Nat) : Int) * 1000000) - l.start).tdiv 1000000 ≤ 4 := by
      rw [hstart, elapsed_ms (s + 1) s0 (by omega)]
      omega
    have htick := schedulerTick_idle gen l _ (((s + 1 : Nat) : Int) * 1000000) hel
    have hrest := ih (s + 1) (by omega) (by omega)
    simp only [pollEveryMs, run, step, htick, hrest, List.map_nil, List.append_nil]

/-- Five consecutive millisecond polls after a baseline reset: four idle ticks and one
that requests the vector of the current phase. -/
theorem run_block (gen : CPU8080 → Nat → CPU8080) (hgen : ∀ c v, c.IntEnable = 1 → (gen c v).IntEnable = 1)
    (l : loopState) (s0 : Nat)
    (hstart : l.start = ((s0 : Nat) : Int) * 1000000) (hie : l.cpu.IntEnable = 1)
    (hlen : l.mState.screenBuffer.length = 224 * 256 * 4)
    (hw : l.mState.whichInterrupt = 1 ∨ l.mState.whichInterrupt = 2) :
    ∃ l', run gen l (pollEveryMs s0 5) = some (l', [Effect.interrupt l.mState.whichInterrupt]) ∧
      l'.start = (((s0 + 5 : Nat)) : Int) * 1000000 ∧ l'.cpu.IntEnable = 1 ∧
      l'.mState.screenBuffer.length = 224 * 256 * 4 ∧
      l'.mState.whichInterrupt = 3 - l.mState.whichInterrupt := by
  have hidle := run_idle_polls gen l s0 hstart 4 s0 (le_refl _) (le_refl _)
  have hdue : ((((s0 + 4 + 1 : Nat) : Int) * 1000000) - l.start).tdiv 1000000 > 4 := by
    rw [hstart, elapsed_ms (s0 + 4 + 1) s0 (by omega)]
    omega
  obtain ⟨m', htick, hlen', hw'⟩ :=
    schedulerTick_fire gen l _ (((s0 + 4 + 1 : Nat) : Int) * 1000000) hlen hw hdue hie
  have hlast : run gen l (pollEveryMs (s0 + 4) 1)
      = some ({ l with cpu := gen l.cpu l.mState.whichInterrupt, mState := m',
                       start := ((s0 + 4 + 1 : Nat) : Int) * 1000000 },
          [Effect.interrupt l.mState.whichInterrupt]) := by
    simp only [pollEveryMs, run, step, htick, List.map_cons, List.map_nil, List.append_nil]
  have happ := run_append gen (pollEveryMs s0 4) (pollEveryMs (s0 + 4) 1) l _ _ hidle hlast
  rw [← pollEveryMs_append 4 1 s0] at happ
  exact ⟨_, happ, rfl, hgen _ _ hie, hlen', hw'⟩

theorem run_blocks (gen : CPU8080 → Nat → CPU8080) (hgen : ∀ c v, c.IntEnable = 1 → (gen c v).IntEnable = 1)
    (n : Nat) :
    ∀ (l : loopState) (s0 : Nat), l.start = ((s0 : Nat) : Int) * 1000000 →
      l.cpu.IntEnable = 1 → l.mState.screenBuffer.length = 224 * 256 * 4 →
      (l.mState.whichInterrupt = 1 ∨ l.mState.whichInterrupt = 2) →
      ∃ l' es, run gen l (pollEveryMs s0 (5 * n)) = some (l', es) ∧
        interrupts es = alternating l.mState.whichInterrupt n := by
  induction n with
  | zero =>
    intro l s0 _ _ _ _
    exact ⟨l, [], rfl, rfl⟩
  | succ n ih =>
    intro l s0 hstart hie hlen hw
    obtain ⟨l1, hrun1, hstart1, hie1, hlen1, hw1⟩ := run_block gen hgen l s0 hstart hie hlen hw
    have hw1' : l1.mState.whichInterrupt = 1 ∨ l1.mState.whichInterrupt = 2 := by omega
    obtain ⟨l2, es, hrun2, halt⟩ := ih l1 (s0 + 5) hstart1 hie1 hlen1 hw1'
    have happ := run_append gen (pollEveryMs s0 5) (pollEveryMs (s0 + 5) (5 * n)) l _ _ hrun1 hrun2
    rw [← pollEveryMs_append 5 (5 * n) s0] at happ
    have e : 5 * (n + 1) = 5 + 5 * n := by omega
    refine ⟨l2, _, by rw [e]; exact happ, ?_⟩
    show interrupts ([Effect.interrupt l.mState.whichInterrupt] ++ es) = _
    rw [interrupts_append, halt, hw1]
    rfl

set_option maxRecDepth 20000 in
theorem alternating_counts :
    (alternating 1 200).count 1 = 100 ∧ (alternating 1 200).count 2 = 100 ∧
    (alternating 1 200).length = 200 := by
  decide

/-- One millisecond-polled second with the interrupt-enable flag held on: 200
requests, 100 of each vector. -/
theorem run_second (gen : CPU8080 → Nat → CPU8080) (cpu : CPU8080)
    (hie : cpu.IntEnable = 1) (hgen : ∀ c v, c.IntEnable = 1 → (gen c v).IntEnable = 1) :
    ∃ l es, run gen (initialLoopState cpu 0) (pollEveryMs 0 1000) = some (l, es) ∧
      (interrupts es).count 1 = 100 ∧ (interrupts es).count 2 = 100 ∧
      (interrupts es).length = 200 := by
  obtain ⟨l, es, hrun, halt⟩ := run_blocks gen hgen 200 (initialLoopState cpu 0) 0
    (by simp [initialLoopState]) hie initialMachineState_length (Or.inl rfl)
  have hw : (initialLoopState cpu 0).mState.whichInterrupt = 1 := rfl
  rw [hw] at halt
  refine ⟨l, es, hrun, ?_⟩
  rw [halt]
  exact alternating_counts

/-- C12 as stated fails: with the flag held on and a poll at each of the milliseconds
1..1000 after the baseline, the scheduler requests 200 interrupts, 100 of each
vector, not about 120 with about 60 of each. -/
theorem cadence_counterexample :
    ∃ l es, run keepCPU (initialLoopState enabledCPU 0) (pollEveryMs 0 1000) = some (l, es) ∧
      (interrupts es).length = 200 ∧ ¬ ((interrupts es).count 1 ≤ 99) ∧
      ¬ ((interrupts es).count 2 ≤ 99) := by
  obtain ⟨l, es, hrun, h1, h2, hlen⟩ := run_second keepCPU enabledCPU rfl (fun _ _ h => h)
  exact ⟨l, es, hrun, hlen, by omega, by omega⟩

/-- C12 (amended): with the interrupt-enable flag on at the start and left on by every
interrupt delivery, and the scheduler polled at each of the whole milliseconds
1..1000 after the baseline (both clock readings of a poll equal), the run returns and
requests vector 1 exactly 100 times and vector 2 exactly 100 times, 200 interrupts in
total: the tick is due once the whole-millisecond count exceeds 1000/240 = 4, that
is every 5 ms. -/
theorem cadence (GenerateInterrupt : CPU8080 → Nat → CPU8080) (cpu : CPU8080)
    (hie : cpu.IntEnable = 1) (hgen : ∀ c v, c.IntEnable = 1 → (GenerateInterrupt c v).IntEnable = 1) :
    ∃ l es, run GenerateInterrupt (initialLoopState cpu 0) (pollEveryMs 0 1000) = some (l, es) ∧
      (interrupts es).count 1 = 100 ∧ (interrupts es).count 2 = 100 ∧
      (interrupts es).length = 200 :=
  run_second GenerateInterrupt cpu hie hgen

/-- Instance of amended C12: the all-zero memory CPU with the flag on and an interrupt
delivery that leaves the CPU record unchanged. -/
theorem cadence_witness :
    (enabledCPU.IntEnable = 1 ∧ ∀ c v, c.IntEnable = 1 → (keepCPU c v).IntEnable = 1) ∧
    ∃ l es, run keepCPU (initialLoopState enabledCPU 0) (pollEveryMs 0 1000) = some (l, es) ∧
      (interrupts es).count 1 = 100 ∧ (interrupts es).count 2 = 100 ∧
      (interrupts es).length = 200 :=
  ⟨⟨rfl, fun _ _ h => h⟩, cadence keepCPU enabledCPU rfl (fun _ _ h => h)⟩

end SpaceInvaders
